import Mathlib

/-!
# Verification of the becquerel rebinning engine (`becquerel/core/rebin.py`)

This file gives a shallow embedding, over exact rationals, of the rebinning
core: the validation helpers, the deterministic interpolation kernel
(`_rebin_interpolation_vectorized`), the stochastic listmode kernel
(`_rebin_listmode_vectorized`, with the random draws supplied by an explicit
oracle `rand : ℕ → ℚ`), the 1-D → 2-D broadcasting helper, and the public
dispatcher `rebin`.  Machine floats are modelled by `ℚ`; the numeric
tolerances that appear in the source (`np.isclose` with atol `1e-8`, the
slope threshold `1e-6`) are carried over literally as rational constants.

Conventions used throughout:
* numpy arrays of floats are `List ℚ`; int64 arrays are `List ℤ`;
* `l.getD i 0` stands for an in-bounds numpy read `l[i]` (all theorems keep
  indices in bounds via their hypotheses);
* division by zero in `ℚ` is total (`x / 0 = 0`) where IEEE floats produce
  `inf`/`nan`; no theorem below relies on a division whose denominator can
  vanish under its hypotheses, except where the point being proved is merely
  that no exception escapes;
* Python exceptions become `Except` errors; `warnings.warn` becomes an
  explicit list of warning records returned next to the result.
-/

namespace Becq

/-- Absolute tolerance of `np.isclose(x, 0)` (atol = 1e-8; the rtol term
vanishes against 0) as used by `_check_monotonic_increasing`. -/
def Tol : ℚ := 1 / 100000000

/-- Slope threshold `1e-6` used by `_linear_offset`. -/
def SlopeEps : ℚ := 1 / 1000000

/-- In-bounds numpy read `l[i]` (default 0 out of bounds). -/
def sget (l : List ℚ) (i : ℕ) : ℚ := l.getD i 0

/-- `np.abs`, written out so that it reduces inside the kernel (provably
equal to `|·|`, see `rabs_eq_abs`). -/
def rabs (q : ℚ) : ℚ := if q < 0 then -q else q

/-- `np.searchsorted(l, v)` (side "left") on a sorted `l`: the number of
entries strictly below `v`, i.e. the first index whose entry is `≥ v`. -/
def searchsorted : List ℚ → ℚ → ℕ
  | [], _ => 0
  | x :: xs, v => if x < v then searchsorted xs v + 1 else 0

/-- `_linear_offset(slope, cts, low, high)`: the offset `b` of the local
linear density `y = slope·x + b` of a bin holding `cts` counts. -/
def linear_offset (slope cts low high : ℚ) : ℚ :=
  if rabs slope < SlopeEps then cts / (high - low)
  else (cts - slope / 2 * (high ^ 2 - low ^ 2)) / (high - low)

/-- `_slope_integral(x, m, b)`: antiderivative `m x²/2 + b x`. -/
def slope_integral (x m b : ℚ) : ℚ := m * x ^ 2 / 2 + b * x

/-- `_counts(m, b, x_low, x_high)`: the definite integral of `y = m x + b`
over `[x_low, x_high]`. -/
def counts' (m b xlow xhigh : ℚ) : ℚ :=
  slope_integral xhigh m b - slope_integral xlow m b

/-- `out[j] += c` on a spectrum modelled as a function. -/
def bump (f : ℕ → ℚ) (j : ℕ) (c : ℚ) : ℕ → ℚ :=
  fun t => if t = j then f t + c else f t

/-- Inner loop of `_rebin_interpolation_vectorized`: for the current input
bin (`inL`, `inR`, slope `s`, offset `b`) walk the output bins whose indices
are listed in the first explicit argument (always `List.range' j (m - j)`),
stopping at the first output bin lying wholly right of the input bin.
Returns the updated output spectrum together with the output cursor as the
Python loop leaves it (on a break at bin `j` the cursor is rewound to
`j - 1`; Python would produce `-1` if the break fired at `j = 0`, which
cannot happen for monotone edges — the natural-number truncation used here
agrees with the source on every input reachable under the theorems below).
`E` is the output-edge array without its (discarded) rightmost entry; the
`+∞` sentinel the source appends is never read arithmetically. -/
def interpInner (E : List ℚ) (s b inL inR : ℚ) :
    List ℕ → (ℕ → ℚ) → ℕ → ((ℕ → ℚ) × ℕ)
  | [], out, prev => (out, prev)
  | j :: rest, out, _prev =>
    if inR < sget E j then (out, j - 1)
    else
      -- low = in_left_edge for the 0th output bin (underflow absorption),
      -- high = in_right_edge for the last output bin (overflow absorption)
      interpInner E s b inL inR rest
        (bump out j (counts' s b
          (if j = 0 then inL else max inL (sget E j))
          (if j = E.length - 1 then inR else min inR (sget E (j + 1))))) j

/-- Outer loop of `_rebin_interpolation_vectorized`: walk the input bins
listed in the first explicit argument (always `List.range' i0 (n - i0)`),
carrying the output spectrum and the output cursor. -/
def interpOuter (inS inE E slopes : List ℚ) :
    List ℕ → (ℕ → ℚ) → ℕ → (ℕ → ℚ)
  | [], out, _ => out
  | i :: rest, out, cur =>
    let inL := sget inE i
    let inR := sget inE (i + 1)
    let b := linear_offset (sget slopes i) (sget inS i) inL inR
    let st := interpInner E (sget slopes i) b inL inR
      (List.range' cur (E.length - cur)) out cur
    interpOuter inS inE E slopes rest st.1 st.2

/-- `_rebin_interpolation_vectorized(in_spectrum, in_edges,
out_edges_no_rightmost, slopes)`.  `E` is the output-edge array with the
rightmost edge already removed (the caller passes `out_edges[:-1]`); the
kernel conceptually appends `+∞`, which only ever affects it through the
overflow branch modelled in `interpInner`.  The two `searchsorted` starts
and the underflow pre-accumulation follow the source; `Nat` subtraction
realises the `max(0, · - 1)` of the source. -/
def rebin_interpolation_vectorized (inS inE E slopes : List ℚ) : List ℚ :=
  let i0 := searchsorted inE (sget E 0) - 1
  let cur0 := searchsorted E (sget inE 0) - 1
  let init : ℕ → ℚ := bump (fun _ => 0) 0 ((inS.take i0).sum)
  let fin := interpOuter inS inE E slopes (List.range' i0 (inS.length - i0)) init cur0
  (List.range E.length).map fin

/-- `_rebin_interpolation`: the wrapper drops the rightmost output edge
before invoking the vectorized kernel. -/
def rebin_interpolation (inS inE outE slopes : List ℚ) : List ℚ :=
  rebin_interpolation_vectorized inS inE outE.dropLast slopes

/-- `np.round`: round half to even (banker's rounding); `q - ⌊q⌋` is the
fractional part. -/
def roundHalfEven (q : ℚ) : ℤ :=
  if q - ⌊q⌋ < 1 / 2 then ⌊q⌋
  else if 1 / 2 < q - ⌊q⌋ then ⌊q⌋ + 1
  else if Even ⌊q⌋ then ⌊q⌋ else ⌊q⌋ + 1

/-- One value of `np.allclose(x, np.round(x))`: `|x - round x| ≤ atol +
rtol·|round x|` with atol = 1e-8, rtol = 1e-5. -/
def closeToRound (x : ℚ) : Bool :=
  decide (rabs (x - roundHalfEven x)
    ≤ 1 / 100000000 + 1 / 100000 * rabs (roundHalfEven x : ℚ))

/-- Synthetic event energies of `_rebin_listmode_vectorized`: bin `i` with
(nonnegative) count `c` yields `c` events `inE[i] + (inE[i+1] - inE[i]) * r`
whose uniform draws `r` come from the oracle `rand` at consecutive indices
`off, off+1, …` — modelling the sequential consumption of the numpy global
random stream by `np.random.rand(bin_counts)`. -/
def eventsOf (rand : ℕ → ℚ) (inE : List ℚ) : ℕ → ℕ → List ℤ → List ℚ
  | _, _, [] => []
  | off, i, c :: cs =>
    (List.range c.toNat).map
      (fun k => sget inE i + (sget inE (i + 1) - sget inE i) * rand (off + k))
    ++ eventsOf rand inE (off + c.toNat) (i + 1) cs

/-- Histogram bin index of an event against output edges
`[-∞, internals…, +∞]` (the kernel replaces the first and last output
boundaries by infinities): the number of internal edges `≤ x`. -/
def binIndexOf (internals : List ℚ) (x : ℚ) : ℕ :=
  internals.countP (fun e => decide (e ≤ x))

/-- `_rebin_listmode_vectorized(in_spectrum, in_edges,
out_edges_no_rightmost)`: expand to events, then histogram with the first
and last boundaries replaced by `-∞`/`+∞` (`E.tail` is the list of finite
internal edges of the histogram). -/
def rebin_listmode_vectorized (rand : ℕ → ℚ) (inS : List ℤ) (inE E : List ℚ) :
    List ℤ :=
  let evs := eventsOf rand inE 0 0 inS
  (List.range E.length).map
    (fun j => ((evs.countP (fun x => binIndexOf E.tail x == j) : ℕ) : ℤ))

/-- Number of random draws the listmode kernel consumes on a spectrum. -/
def totalCounts (s : List ℤ) : ℕ := (s.map Int.toNat).sum

/-- Re-index the random oracle past `off` already-consumed draws. -/
def shiftRand (rand : ℕ → ℚ) (off : ℕ) : ℕ → ℚ := fun t => rand (off + t)

/-! ## Arrays, validation helpers and the dispatcher -/

/-- A numpy array of rank 1 or 2 (float64 values modelled as `ℚ`). -/
inductive NDArr where
  | one : List ℚ → NDArr
  | two : List (List ℚ) → NDArr
deriving DecidableEq, Repr

/-- `arr.ndim`. -/
def NDArr.ndim : NDArr → ℕ
  | .one _ => 1
  | .two _ => 2

/-- `arr.shape` (rows are rectangular in numpy; rank 2 reports the length of
the leading row). -/
def NDArr.shape : NDArr → List ℕ
  | .one l => [l.length]
  | .two ls => [ls.length, (ls.headD []).length]

/-- All entries, flattened. -/
def NDArr.flat : NDArr → List ℚ
  | .one l => l
  | .two ls => ls.flatten

/-- Error kinds, one per raise site of the source.  `typeErr` stands for the
Python `TypeError` escaping from `_check_ndim(out_edges, 1, …)` when
`arr.ndim not in ndim` is evaluated with the integer `ndim = 1` (an
`int` is not iterable), instead of the intended `RebinError`. -/
inductive RebinErr where
  | shape
  | typeErr
  | nonMonotonic
  | noOverlap
  | negativeCounts
  | allBelowOne
  | unknownMethod
deriving DecidableEq, Repr

/-- Warning records (`warnings.warn` sites). -/
inductive RWarn where
  | precisionLoss
  | leftPad
  | rightPad
deriving DecidableEq, Repr

/-- `np.diff` along the last axis of a 1-D array. -/
def diffsRow (l : List ℚ) : List ℚ := List.zipWith (fun a b => b - a) l l.tail

/-- One row of `_check_monotonic_increasing`: every adjacent difference is
`> 0` or within `np.isclose` tolerance of 0. -/
def monoOkRow (l : List ℚ) : Bool :=
  (diffsRow l).all (fun d => decide (0 < d) || decide (rabs d ≤ Tol))

/-- `_check_monotonic_increasing` (diffs taken along the last axis). -/
def checkMonotonic : NDArr → Bool
  | .one l => monoOkRow l
  | .two ls => ls.all monoOkRow

/-- `in_edges[..., 0]`. -/
def firsts : NDArr → List ℚ
  | .one l => [l.headD 0]
  | .two ls => ls.map (fun r => r.headD 0)

/-- `in_edges[..., -1]`. -/
def lasts : NDArr → List ℚ
  | .one l => [l.getLastD 0]
  | .two ls => ls.map (fun r => r.getLastD 0)

/-- `_check_partial_overlap`: warnings for the sides of the output range
not covered by the input range. -/
def padWarnings (inE : NDArr) (oe : List ℚ) : List RWarn :=
  (if (firsts inE).any (fun x => decide (oe.headD 0 < x)) then [RWarn.leftPad] else [])
  ++ (if (lasts inE).any (fun x => decide (x < oe.getLastD 0)) then [RWarn.rightPad] else [])

/-- `_broadcast`: copy a shared 1-D edges/slopes array out to each row of a
2-D spectra batch; otherwise leave it alone. -/
def broadcast (arr spectra : NDArr) : NDArr :=
  match arr, spectra with
  | .one l, .two rows => .two (List.replicate rows.length l)
  | a, _ => a

/-- `np.zeros_like`. -/
def zerosLike : NDArr → NDArr
  | .one l => .one (List.replicate l.length 0)
  | .two ls => .two (ls.map (fun r => List.replicate r.length 0))

/-- The shape `_check_shape` compares against when `edges=True`: last
dimension shrunk by one. -/
def edgesShape : NDArr → List ℕ
  | .one l => [l.length - 1]
  | .two ls => [ls.length, (ls.headD []).length - 1]

/-- `_check_shape(in_spectra, in_edges, edges=True)`. -/
def shapeEdgesOk (spectra edges : NDArr) : Bool := spectra.shape == edgesShape edges

/-- `_check_shape(in_spectra, slopes)`. -/
def shapeEq (a b : NDArr) : Bool := a.shape == b.shape

/-- `arr.ndim in {1, 2}` of `_check_ndim`. -/
def ndimOk2 (a : NDArr) : Bool := a.ndim == 1 || a.ndim == 2

/-- `(in_spectra < 0).any()`. -/
def anyNeg (a : NDArr) : Bool := a.flat.any (fun x => decide (x < 0))

/-- `(in_spectra < 1).all()`. -/
def allBelowOne (a : NDArr) : Bool := a.flat.all (fun x => decide (x < 1))

/-- `np.allclose(in_spectra, np.round(in_spectra))`. -/
def allCloseRound (a : NDArr) : Bool := a.flat.all closeToRound

/-- One row of `np.round(in_spectra)` cast to int64, represented by its
(integral) rational image. -/
def roundRow (l : List ℚ) : List ℚ := l.map (fun q => ((roundHalfEven q : ℤ) : ℚ))

/-- `np.asarray(np.round(in_spectra), dtype=np.int64)`, with the int64
array represented by its (integral) rational image. -/
def roundArr : NDArr → NDArr
  | .one l => .one (roundRow l)
  | .two ls => .two (ls.map roundRow)

/-- Recover the int64 entries of a rounded spectrum (its values are
integral by construction, so `⌊·⌋` is exact extraction). -/
def intCounts (l : List ℚ) : List ℤ := l.map (fun q => ⌊q⌋)

/-- The 1-D output edge list (the dispatcher has already enforced rank 1
when this is read). -/
def outList : NDArr → List ℚ
  | .one l => l
  | .two _ => []

/-- Three-way `zipWith`, as performed by `nb.guvectorize` over the leading
batch dimension. -/
def zip3 {α β γ δ : Type} (f : α → β → γ → δ) : List α → List β → List γ → List δ
  | a :: as, b :: bs, c :: cs => f a b c :: zip3 f as bs cs
  | _, _, _ => []

/-- Batched application of the interpolation kernel (the `s, _, _ => s`
fallback is unreachable: the shape checks force equal ranks). -/
def applyInterp (spectra inE : NDArr) (oe : List ℚ) (sl : NDArr) : NDArr :=
  match spectra, inE, sl with
  | .one s, .one e, .one z => .one (rebin_interpolation s e oe z)
  | .two ss, .two es, .two zs =>
      .two (zip3 (fun s e z => rebin_interpolation s e oe z) ss es zs)
  | s, _, _ => s

/-- One listmode row: `_rebin_listmode` drops the rightmost output edge and
runs the vectorized kernel; int64 results re-enter the float world. -/
def listmodeRow (rand : ℕ → ℚ) (s e oe : List ℚ) : List ℚ :=
  (rebin_listmode_vectorized rand (intCounts s) e oe.dropLast).map
    (fun z : ℤ => (z : ℚ))

/-- Batched listmode: rows are processed in order, each consuming as many
draws from the shared random stream as it has events. -/
def listmodeRows (rand : ℕ → ℚ) (oe : List ℚ) :
    ℕ → List (List ℚ) → List (List ℚ) → List (List ℚ)
  | _, [], _ => []
  | _, _ :: _, [] => []
  | off, s :: ss, e :: es =>
      listmodeRow (shiftRand rand off) s e oe
        :: listmodeRows rand oe (off + totalCounts (intCounts s)) ss es

/-- Number of random draws consumed by the rows before row `i` of a
batched listmode call. -/
def listmodeOffset (ss : List (List ℚ)) (i : ℕ) : ℕ :=
  ((ss.take i).map (fun r => totalCounts (intCounts r))).sum

/-- Batched application of the listmode kernel (fallback unreachable as in
`applyInterp`). -/
def applyListmode (rand : ℕ → ℚ) (spectra inE : NDArr) (oe : List ℚ) : NDArr :=
  match spectra, inE with
  | .one s, .one e => .one (listmodeRow rand s e oe)
  | .two ss, .two es => .two (listmodeRows rand oe 0 ss es)
  | s, _ => s

/-- The validation cascade and dispatch of `rebin` after the
method-specific preprocessing: broadcasting, the four `_check_ndim` calls
(the `out_edges` one raises a Python `TypeError` on rank ≠ 1, see
`RebinErr.typeErr`), the two `_check_shape` calls, the two monotonicity
checks, the two overlap checks, the overlap warnings, then the kernel
dispatch (an unknown method reaches the final `ValueError`). -/
def rebinChecked (rand : ℕ → ℚ) (inS in_edges out_edges : NDArr) (mthd : String)
    (slopes : Option NDArr) (zpw : Bool) (pw : List RWarn) :
    Except RebinErr (NDArr × List RWarn) :=
  let sl0 := slopes.getD (zerosLike inS)
  let inE := broadcast in_edges inS
  let sl := broadcast sl0 inS
  if ¬ ndimOk2 inS then .error .shape
  else if ¬ ndimOk2 inE then .error .shape
  else if ¬ ndimOk2 sl then .error .shape
  else if out_edges.ndim ≠ 1 then .error .typeErr
  else if ¬ shapeEdgesOk inS inE then .error .shape
  else if ¬ shapeEq inS sl then .error .shape
  else if ¬ checkMonotonic inE then .error .nonMonotonic
  else if ¬ checkMonotonic out_edges then .error .nonMonotonic
  else
    let oe := outList out_edges
    if (lasts inE).any (fun x => decide (x ≤ oe.headD 0)) then .error .noOverlap
    else if (firsts inE).any (fun x => decide (oe.getLastD 0 ≤ x)) then .error .noOverlap
    else
      let warns := pw ++ (if zpw then padWarnings inE oe else [])
      if mthd = "interpolation" then .ok (applyInterp inS inE oe sl, warns)
      else if mthd = "listmode" then .ok (applyListmode rand inS inE oe, warns)
      else .error .unknownMethod

/-- `str.lower()` on the method selector: lower-case every character.
(Same action as `String.toLower`, restated over the character data so that
it reduces inside the kernel.) -/
def strLower (s : String) : String := ⟨s.data.map Char.toLower⟩

/-- The public entry point `rebin(in_spectra, in_edges, out_edges, method,
slopes, zero_pad_warnings)`.  The method string is lower-cased first; the
listmode branch rejects negative and all-below-one spectra, warns on lossy
rounding and converts to int64 before the common validation cascade. -/
def rebin (rand : ℕ → ℚ) (in_spectra in_edges out_edges : NDArr) (method : String)
    (slopes : Option NDArr) (zero_pad_warnings : Bool) :
    Except RebinErr (NDArr × List RWarn) :=
  let mthd := strLower method
  if mthd = "listmode" then
    if anyNeg in_spectra then .error .negativeCounts
    else if allBelowOne in_spectra then .error .allBelowOne
    else
      let pw := if allCloseRound in_spectra then [] else [RWarn.precisionLoss]
      rebinChecked rand (roundArr in_spectra) in_edges out_edges mthd slopes
        zero_pad_warnings pw
  else
    rebinChecked rand in_spectra in_edges out_edges mthd slopes zero_pad_warnings []

/-! ## Toolkit: indexed reads, sorted lists, `searchsorted`, sums -/

lemma sget_eq_getElem {l : List ℚ} {i : ℕ} (h : i < l.length) : sget l i = l[i] :=
  List.getD_eq_getElem l 0 h

lemma rabs_eq_abs (q : ℚ) : rabs q = |q| := by
  unfold rabs
  split
  · rw [abs_of_neg (by assumption)]
  · rw [abs_of_nonneg (not_lt.mp (by assumption))]

lemma sget_lt_sget {l : List ℚ} (hs : l.Sorted (· < ·)) {i j : ℕ}
    (hij : i < j) (hj : j < l.length) : sget l i < sget l j := by
  rw [sget_eq_getElem (lt_trans hij hj), sget_eq_getElem hj]
  exact hs.rel_get_of_lt (a := ⟨i, lt_trans hij hj⟩) (b := ⟨j, hj⟩) hij

lemma sget_le_sget {l : List ℚ} (hs : l.Sorted (· < ·)) {i j : ℕ}
    (hij : i ≤ j) (hj : j < l.length) : sget l i ≤ sget l j := by
  rcases Nat.lt_or_ge i j with h | h
  · exact le_of_lt (sget_lt_sget hs h hj)
  · have : i = j := le_antisymm hij h
    simp [this]

lemma searchsorted_le_length (l : List ℚ) (v : ℚ) : searchsorted l v ≤ l.length := by
  induction l with
  | nil => simp [searchsorted]
  | cons x xs ih =>
    by_cases h : x < v <;> simp [searchsorted, h] <;> omega

lemma sget_lt_of_lt_searchsorted {l : List ℚ} {v : ℚ} {k : ℕ}
    (hk : k < searchsorted l v) : sget l k < v := by
  induction l generalizing k with
  | nil => simp [searchsorted] at hk
  | cons x xs ih =>
    by_cases h : x < v
    · rcases k with _ | k
      · simpa [sget]
      · simp only [searchsorted, if_pos h] at hk
        exact ih (by omega)
    · simp [searchsorted, h] at hk

lemma le_sget_searchsorted {l : List ℚ} {v : ℚ}
    (h : searchsorted l v < l.length) : v ≤ sget l (searchsorted l v) := by
  induction l with
  | nil => simp [searchsorted] at h
  | cons x xs ih =>
    by_cases hx : x < v
    · simp only [searchsorted, if_pos hx] at h ⊢
      simpa [sget] using ih (by simpa using h)
    · simp [searchsorted, hx, sget, not_lt.mp hx]

lemma sum_bump {f : ℕ → ℚ} {j m : ℕ} (hj : j < m) (c : ℚ) :
    ∑ t ∈ Finset.range m, bump f j c t = (∑ t ∈ Finset.range m, f t) + c := by
  have hsplit : ∀ t, bump f j c t = f t + (if t = j then c else 0) := by
    intro t; unfold bump; split <;> simp
  simp_rw [hsplit, Finset.sum_add_distrib]
  rw [Finset.sum_ite_eq' (Finset.range m) j fun _ => c]
  simp [Finset.mem_range.mpr hj]

lemma list_sum_eq (l : List ℚ) : l.sum = ∑ i ∈ Finset.range l.length, sget l i := by
  induction l with
  | nil => simp
  | cons x xs ih =>
    rw [List.sum_cons, List.length_cons, Finset.sum_range_succ', ih]
    simp [sget, add_comm]

lemma take_sum_eq {l : List ℚ} {k : ℕ} (hk : k ≤ l.length) :
    (l.take k).sum = ∑ i ∈ Finset.range k, sget l i := by
  induction k with
  | zero => simp
  | succ k ih =>
    rw [List.sum_take_succ l k (by omega), ih (by omega), Finset.sum_range_succ,
      sget_eq_getElem (by omega)]

lemma map_range_sum {M : Type} [AddCommMonoid M] (f : ℕ → M) (m : ℕ) :
    ((List.range m).map f).sum = ∑ t ∈ Finset.range m, f t := by
  induction m with
  | zero => simp
  | succ m ih =>
    rw [List.range_succ, List.map_append, List.sum_append, ih, Finset.sum_range_succ]
    simp

lemma sget_dropLast {l : List ℚ} {i : ℕ} (h : i < l.length - 1) :
    sget l.dropLast i = sget l i := by
  rw [sget_eq_getElem (by simpa using h), sget_eq_getElem (by omega)]
  exact List.getElem_dropLast l i (by simpa using h)

lemma headD_eq_sget (l : List ℚ) : l.headD 0 = sget l 0 := by
  cases l <;> simp [sget]

lemma getLastD_eq_sget {l : List ℚ} (h : l ≠ []) :
    l.getLastD 0 = sget l (l.length - 1) := by
  have hl : 0 < l.length := List.length_pos.mpr h
  rw [List.getLastD_eq_getLast?, List.getLast?_eq_getLast l h, Option.getD_some,
    List.getLast_eq_getElem l h, sget_eq_getElem (by omega)]

lemma diffsRow_cons (x y : ℚ) (ys : List ℚ) :
    diffsRow (x :: y :: ys) = (y - x) :: diffsRow (y :: ys) := rfl

lemma monoOkRow_of_sorted {l : List ℚ} (hs : l.Sorted (· < ·)) :
    monoOkRow l = true := by
  induction l with
  | nil => rfl
  | cons x xs ih =>
    cases xs with
    | nil => rfl
    | cons y ys =>
      obtain ⟨hxy, hs'⟩ := List.sorted_cons.mp hs
      have hy : x < y := hxy y (by simp)
      have htail := ih hs'
      unfold monoOkRow at htail ⊢
      rw [diffsRow_cons, List.all_cons, htail]
      simp [sub_pos.mpr hy]

lemma checkMonotonic_of_sorted {l : List ℚ} (hs : l.Sorted (· < ·)) :
    checkMonotonic (.one l) = true := monoOkRow_of_sorted hs

/-! ## The interpolation kernel: loop invariants and conservation -/

lemma interpInner_nil (E : List ℚ) (s b inL inR : ℚ) (out : ℕ → ℚ) (prev : ℕ) :
    interpInner E s b inL inR [] out prev = (out, prev) := rfl

lemma interpInner_cons (E : List ℚ) (s b inL inR : ℚ) (j : ℕ) (rest : List ℕ)
    (out : ℕ → ℚ) (prev : ℕ) :
    interpInner E s b inL inR (j :: rest) out prev =
      if inR < sget E j then (out, j - 1)
      else
        interpInner E s b inL inR rest
          (bump out j (counts' s b
            (if j = 0 then inL else max inL (sget E j))
            (if j = E.length - 1 then inR else min inR (sget E (j + 1))))) j := rfl

lemma counts'_self (m b x : ℚ) : counts' m b x x = 0 := by
  unfold counts'; ring

/-- The definite integral of the modelled density over the full input bin
recovers the bin's counts, provided the slope is 0 or clears the `1e-6`
branch threshold of `_linear_offset` (in the open dead zone the flat branch
is taken with a nonzero slope and the reconstruction is off by exactly
`s/2·(R² - L²)`, a quantity below float tolerance for unit-scale edges). -/
lemma counts_linear_offset_eq {s c L R : ℚ} (hLR : L < R)
    (hs : s = 0 ∨ SlopeEps ≤ |s|) :
    counts' s (linear_offset s c L R) L R = c := by
  have hne : R - L ≠ 0 := sub_ne_zero.mpr (ne_of_gt hLR)
  rcases hs with hs | hs
  · subst hs
    unfold linear_offset
    rw [if_pos (by norm_num [rabs, SlopeEps])]
    unfold counts' slope_integral
    field_simp
    ring
  · unfold linear_offset
    rw [if_neg (not_lt.mpr (by rw [rabs_eq_abs]; exact hs))]
    unfold counts' slope_integral
    field_simp
    ring

lemma interpInner_prev_irrel (E : List ℚ) (s b inL inR : ℚ) (l : List ℕ)
    (hl : l ≠ []) (out : ℕ → ℚ) (p q : ℕ) :
    interpInner E s b inL inR l out p = interpInner E s b inL inR l out q := by
  cases l with
  | nil => exact absurd rfl hl
  | cons j rest => rfl

/-- Cursor facts of the inner loop: starting at an output bin `j` whose
left edge has not yet passed the current input bin (`E[j] ≤ inR`), the loop
leaves the cursor inside the array, on an output bin whose left edge is
`≤ inR`, and whose successor edge (if any) is `≥ inR`. -/
lemma interpInner_cursor (E : List ℚ) (s b inL inR : ℚ) :
    ∀ (n j : ℕ), E.length - j = n + 1 → j < E.length → sget E j ≤ inR →
      ∀ out : ℕ → ℚ,
      (interpInner E s b inL inR (List.range' j (E.length - j)) out j).2 < E.length ∧
      sget E (interpInner E s b inL inR (List.range' j (E.length - j)) out j).2 ≤ inR ∧
      ((interpInner E s b inL inR (List.range' j (E.length - j)) out j).2 = E.length - 1 ∨
        inR ≤ sget E ((interpInner E s b inL inR (List.range' j (E.length - j)) out j).2 + 1)) := by
  intro n
  induction n with
  | zero =>
    intro j hn hj hP2 out
    have hjm : j = E.length - 1 := by omega
    rw [hn, List.range'_one, interpInner_cons, if_neg (not_lt.mpr hP2), interpInner_nil]
    exact ⟨hj, hP2, Or.inl hjm⟩
  | succ n ih =>
    intro j hn hj hP2 out
    have hjm : j ≠ E.length - 1 := by omega
    have hj1 : j + 1 < E.length := by omega
    rw [hn, List.range'_succ, interpInner_cons, if_neg (not_lt.mpr hP2)]
    by_cases hnext : sget E (j + 1) ≤ inR
    · rw [show List.range' (j + 1) (n + 1) = List.range' (j + 1) (E.length - (j + 1)) by
        congr 1; omega]
      rw [interpInner_prev_irrel E s b inL inR _ (fun h => by
        have := congrArg List.length h
        simp [List.length_range'] at this
        omega) _ j (j + 1)]
      exact ih (j + 1) (by omega) hj1 hnext _
    · push_neg at hnext
      rw [List.range'_succ, interpInner_cons, if_pos hnext]
      refine ⟨by omega, by simpa using hP2, Or.inr ?_⟩
      simpa using le_of_lt hnext

/-- Sum evolution of the inner loop: under the same entry conditions plus
`inL ≤ E[j+1]` (unless `j` is the last bin), the inner loop adds to the
output spectrum exactly the integral of the current density from the entry
low edge to `inR`, telescoping over the visited output bins. -/
lemma interpInner_sum (E : List ℚ) (hE : E.Sorted (· < ·)) (s b inL inR : ℚ) :
    ∀ (n j : ℕ), E.length - j = n + 1 → j < E.length → sget E j ≤ inR →
      (j = E.length - 1 ∨ inL ≤ sget E (j + 1)) → ∀ out : ℕ → ℚ,
      (∑ t ∈ Finset.range E.length,
        (interpInner E s b inL inR (List.range' j (E.length - j)) out j).1 t) =
      (∑ t ∈ Finset.range E.length, out t) + slope_integral inR s b
        - slope_integral (if j = 0 then inL else max inL (sget E j)) s b := by
  intro n
  induction n with
  | zero =>
    intro j hn hj hP2 _hP3 out
    have hjm : j = E.length - 1 := by omega
    rw [hn, List.range'_one, interpInner_cons, if_neg (not_lt.mpr hP2), interpInner_nil,
      if_pos hjm]
    rw [sum_bump hj]
    unfold counts'
    ring
  | succ n ih =>
    intro j hn hj hP2 hP3 out
    have hjm : j ≠ E.length - 1 := by omega
    have hj1 : j + 1 < E.length := by omega
    rw [hn, List.range'_succ, interpInner_cons, if_neg (not_lt.mpr hP2), if_neg hjm]
    by_cases hnext : sget E (j + 1) ≤ inR
    · rw [min_eq_right hnext]
      have hP3' : j + 1 = E.length - 1 ∨ inL ≤ sget E (j + 1 + 1) := by
        by_cases h2 : j + 1 = E.length - 1
        · exact Or.inl h2
        · right
          rcases hP3 with h | h
          · exact absurd h hjm
          · exact le_trans h (sget_le_sget hE (by omega) (by omega))
      have hIH := ih (j + 1) (by omega) hj1 hnext hP3'
        (bump out j (counts' s b (if j = 0 then inL else max inL (sget E j)) (sget E (j + 1))))
      rw [show List.range' (j + 1) (n + 1) = List.range' (j + 1) (E.length - (j + 1)) by
        congr 1; omega]
      rw [interpInner_prev_irrel E s b inL inR _ (fun h => by
        have := congrArg List.length h
        simp [List.length_range'] at this
        omega) _ j (j + 1)]
      rw [hIH, sum_bump hj]
      have hlow1 : inL ≤ sget E (j + 1) := by
        rcases hP3 with h | h
        · exact absurd h hjm
        · exact h
      rw [if_neg (Nat.succ_ne_zero j), max_eq_right hlow1]
      unfold counts'
      ring
    · push_neg at hnext
      rw [min_eq_left (le_of_lt hnext), List.range'_succ, interpInner_cons, if_pos hnext]
      rw [show ((bump out j (counts' s b (if j = 0 then inL else max inL (sget E j)) inR),
        j + 1 - 1) : (ℕ → ℚ) × ℕ).1 = bump out j (counts' s b
          (if j = 0 then inL else max inL (sget E j)) inR) from rfl]
      rw [sum_bump hj]
      unfold counts'
      ring

lemma interpOuter_cons (inS inE E slopes : List ℚ) (i : ℕ) (rest : List ℕ)
    (out : ℕ → ℚ) (cur : ℕ) :
    interpOuter inS inE E slopes (i :: rest) out cur =
      interpOuter inS inE E slopes rest
        (interpInner E (sget slopes i)
          (linear_offset (sget slopes i) (sget inS i) (sget inE i) (sget inE (i + 1)))
          (sget inE i) (sget inE (i + 1)) (List.range' cur (E.length - cur)) out cur).1
        (interpInner E (sget slopes i)
          (linear_offset (sget slopes i) (sget inS i) (sget inE i) (sget inE (i + 1)))
          (sget inE i) (sget inE (i + 1)) (List.range' cur (E.length - cur)) out cur).2 :=
  rfl

/-- Sum evolution of the outer loop: processing input bins `i, …, n-1` with
a cursor satisfying the loop invariant adds exactly the per-bin integrals
of the modelled densities over their full input bins. -/
lemma interpOuter_sum (inS inE E slopes : List ℚ)
    (hE : E.Sorted (· < ·)) (hin : inE.Sorted (· < ·))
    (hlen : inE.length = inS.length + 1) :
    ∀ (k i : ℕ), inS.length - i = k → i ≤ inS.length →
      ∀ cur, cur < E.length →
      (cur = 0 ∨ sget E cur ≤ sget inE i) →
      (cur = E.length - 1 ∨ sget inE i ≤ sget E (cur + 1)) →
      (i < inS.length → sget E 0 ≤ sget inE (i + 1)) →
      ∀ out : ℕ → ℚ,
      (∑ t ∈ Finset.range E.length,
        interpOuter inS inE E slopes (List.range' i (inS.length - i)) out cur t) =
      (∑ t ∈ Finset.range E.length, out t) +
        ∑ t ∈ Finset.Ico i inS.length,
          counts' (sget slopes t)
            (linear_offset (sget slopes t) (sget inS t) (sget inE t) (sget inE (t + 1)))
            (sget inE t) (sget inE (t + 1)) := by
  intro k
  induction k with
  | zero =>
    intro i hk hi cur _ _ _ _ out
    have hieq : i = inS.length := by omega
    subst hieq
    rw [Nat.sub_self]
    simp [interpOuter, Finset.Ico_self]
  | succ k ih =>
    intro i hk hi cur hcur hI2 hI3 hD out
    have hilt : i < inS.length := by omega
    have hi1len : i + 1 < inE.length := by omega
    have hLR : sget inE i < sget inE (i + 1) := sget_lt_sget hin (by omega) hi1len
    have hP2 : sget E cur ≤ sget inE (i + 1) := by
      rcases hI2 with h0 | hle
      · subst h0; exact hD hilt
      · exact le_trans hle (le_of_lt hLR)
    rw [hk, List.range'_succ, interpOuter_cons]
    obtain ⟨hc1, hc2, hc3⟩ := interpInner_cursor E (sget slopes i)
      (linear_offset (sget slopes i) (sget inS i) (sget inE i) (sget inE (i + 1)))
      (sget inE i) (sget inE (i + 1)) (E.length - cur - 1) cur (by omega) hcur hP2 out
    have hD2 : i + 1 < inS.length → sget E 0 ≤ sget inE (i + 1 + 1) := by
      intro h2
      exact le_trans (hD hilt) (sget_le_sget hin (by omega) (by omega))
    rw [show List.range' (i + 1) k = List.range' (i + 1) (inS.length - (i + 1)) by
      congr 1; omega]
    rw [ih (i + 1) (by omega) (by omega) _ hc1 (Or.inr hc2) hc3 hD2 _]
    have hsum := interpInner_sum E hE (sget slopes i)
      (linear_offset (sget slopes i) (sget inS i) (sget inE i) (sget inE (i + 1)))
      (sget inE i) (sget inE (i + 1)) (E.length - cur - 1) cur (by omega) hcur hP2 hI3 out
    have hlow : (if cur = 0 then sget inE i else max (sget inE i) (sget E cur))
        = sget inE i := by
      by_cases hc0 : cur = 0
      · rw [if_pos hc0]
      · rcases hI2 with h0 | hle
        · exact absurd h0 hc0
        · rw [if_neg hc0, max_eq_left hle]
    rw [hlow] at hsum
    rw [hsum, Finset.sum_eq_sum_Ico_succ_bot hilt]
    unfold counts'
    ring

/-- Conservation of the vectorized interpolation kernel, in exact
arithmetic: when every slope is 0 or at least the `1e-6` branch threshold
in absolute value, the output bins (underflow and overflow absorbed into
the first and last bins) sum to the input total. -/
lemma rebin_interpolation_vectorized_sum (inS inE E slopes : List ℚ)
    (hE : E.Sorted (· < ·)) (hin : inE.Sorted (· < ·))
    (hlen : inE.length = inS.length + 1) (hsl : slopes.length = inS.length)
    (hm : 1 ≤ E.length)
    (hslope : ∀ s ∈ slopes, s = 0 ∨ SlopeEps ≤ |s|) :
    (rebin_interpolation_vectorized inS inE E slopes).sum = inS.sum := by
  unfold rebin_interpolation_vectorized
  rw [map_range_sum]
  have hssi := searchsorted_le_length inE (sget E 0)
  have hsso := searchsorted_le_length E (sget inE 0)
  have hi0 : searchsorted inE (sget E 0) - 1 ≤ inS.length := by omega
  have hcur0 : searchsorted E (sget inE 0) - 1 < E.length := by omega
  -- the outer loop invariant at initialisation
  have hI2 : searchsorted E (sget inE 0) - 1 = 0 ∨
      sget E (searchsorted E (sget inE 0) - 1)
        ≤ sget inE (searchsorted inE (sget E 0) - 1) := by
    by_cases h2 : 2 ≤ searchsorted E (sget inE 0)
    · right
      have h1 : sget E (searchsorted E (sget inE 0) - 1) < sget inE 0 :=
        sget_lt_of_lt_searchsorted (by omega)
      exact le_of_lt (lt_of_lt_of_le h1 (sget_le_sget hin (by omega) (by omega)))
    · left; omega
  have hI3 : searchsorted E (sget inE 0) - 1 = E.length - 1 ∨
      sget inE (searchsorted inE (sget E 0) - 1)
        ≤ sget E (searchsorted E (sget inE 0) - 1 + 1) := by
    by_cases hclast : searchsorted E (sget inE 0) - 1 = E.length - 1
    · exact Or.inl hclast
    · right
      by_cases hssi1 : 1 ≤ searchsorted inE (sget E 0)
      · have h1 : sget inE (searchsorted inE (sget E 0) - 1) < sget E 0 :=
          sget_lt_of_lt_searchsorted (by omega)
        exact le_of_lt (lt_of_lt_of_le h1 (sget_le_sget hE (by omega) (by omega)))
      · have hi00 : searchsorted inE (sget E 0) - 1 = 0 := by omega
        rw [hi00]
        by_cases hsso1 : 2 ≤ searchsorted E (sget inE 0)
        · have : sget inE 0 ≤ sget E (searchsorted E (sget inE 0)) :=
            le_sget_searchsorted (by omega)
          exact le_trans this (sget_le_sget hE (by omega) (by omega))
        · have hc00 : searchsorted E (sget inE 0) - 1 = 0 := by omega
          rw [hc00]
          have hss_lt : searchsorted E (sget inE 0) < E.length := by omega
          have : sget inE 0 ≤ sget E (searchsorted E (sget inE 0)) :=
            le_sget_searchsorted hss_lt
          exact le_trans this (sget_le_sget hE (by omega) (by omega))
  have hD : searchsorted inE (sget E 0) - 1 < inS.length →
      sget E 0 ≤ sget inE (searchsorted inE (sget E 0) - 1 + 1) := by
    intro hlt
    by_cases hssi1 : 1 ≤ searchsorted inE (sget E 0)
    · have : sget E 0 ≤ sget inE (searchsorted inE (sget E 0)) :=
        le_sget_searchsorted (by omega)
      exact le_trans this (sget_le_sget hin (by omega) (by omega))
    · have hi00 : searchsorted inE (sget E 0) - 1 = 0 := by omega
      rw [hi00]
      have h0 : sget E 0 ≤ sget inE 0 := by
        have := le_sget_searchsorted (l := inE) (v := sget E 0) (by omega)
        simpa [show searchsorted inE (sget E 0) = 0 by omega] using this
      exact le_trans h0 (sget_le_sget hin (by omega) (by omega))
  rw [interpOuter_sum inS inE E slopes hE hin hlen
    (inS.length - (searchsorted inE (sget E 0) - 1)) _ rfl hi0 _ hcur0 hI2 hI3 hD _]
  rw [sum_bump (by omega)]
  rw [Finset.sum_const_zero, zero_add]
  rw [take_sum_eq (by omega)]
  have hcontrib : ∀ t ∈ Finset.Ico (searchsorted inE (sget E 0) - 1) inS.length,
      counts' (sget slopes t)
        (linear_offset (sget slopes t) (sget inS t) (sget inE t) (sget inE (t + 1)))
        (sget inE t) (sget inE (t + 1)) = sget inS t := by
    intro t ht
    obtain ⟨_, ht2⟩ := Finset.mem_Ico.mp ht
    refine counts_linear_offset_eq (sget_lt_sget hin (by omega) (by omega)) ?_
    have : sget slopes t ∈ slopes := by
      rw [sget_eq_getElem (by omega)]
      exact List.getElem_mem _
    exact hslope _ this
  rw [Finset.sum_congr rfl hcontrib]
  rw [Finset.range_eq_Ico,
    Finset.sum_Ico_consecutive _ (Nat.zero_le _) hi0, ← Finset.range_eq_Ico]
  rw [list_sum_eq]

lemma sget_replicate (n i : ℕ) : sget (List.replicate n (0 : ℚ)) i = 0 := by
  rcases Nat.lt_or_ge i n with h | h
  · rw [sget_eq_getElem (by simpa using h)]
    exact List.getElem_replicate _ _
  · exact List.getD_eq_default _ _ (by simpa using h)

lemma searchsorted_head {l : List ℚ} (h : l ≠ []) : searchsorted l (sget l 0) = 0 := by
  cases l with
  | nil => exact absurd rfl h
  | cons x xs =>
    show searchsorted (x :: xs) (sget (x :: xs) 0) = 0
    have : sget (x :: xs) 0 = x := rfl
    rw [this]
    simp [searchsorted]

/-- Identity run of the outer loop: rebinning onto the input's own edges
(zero slopes) copies each input bin into the matching output bin, putting
an exact zero into the following bin and advancing both cursors in
lockstep. -/
lemma interpOuter_identity (inS inE E : List ℚ) (hin : inE.Sorted (· < ·))
    (hlen : inE.length = inS.length + 1) (hElen : E.length = inS.length)
    (hEeq : ∀ j, j < inS.length → sget E j = sget inE j) :
    ∀ (k i : ℕ), inS.length - i = k → i ≤ inS.length →
      ∀ out : ℕ → ℚ,
      (∀ t, t < i → out t = sget inS t) → (∀ t, i ≤ t → out t = 0) →
      ∀ t, t < inS.length →
      interpOuter inS inE E (List.replicate inS.length 0)
        (List.range' i (inS.length - i)) out i t = sget inS t := by
  intro k
  induction k with
  | zero =>
    intro i hk hi out hpre _hpost t ht
    have hieq : i = inS.length := by omega
    rw [hk]
    show out t = sget inS t
    exact hpre t (by omega)
  | succ k ih =>
    intro i hk hi out hpre hpost t ht
    have hilt : i < inS.length := by omega
    have hLR : sget inE i < sget inE (i + 1) := sget_lt_sget hin (by omega) (by omega)
    have hcond : ¬ (sget inE (i + 1) < sget E i) := by
      rw [hEeq i hilt]; exact not_lt.mpr (le_of_lt hLR)
    have hlow : (if i = 0 then sget inE i else max (sget inE i) (sget E i))
        = sget inE i := by
      rw [hEeq i hilt]; split <;> simp
    have hhigh : (if i = E.length - 1 then sget inE (i + 1)
        else min (sget inE (i + 1)) (sget E (i + 1))) = sget inE (i + 1) := by
      split
      · rfl
      · rw [hEeq (i + 1) (by omega), min_self]
    have hceq : counts' 0 (linear_offset 0 (sget inS i) (sget inE i) (sget inE (i + 1)))
        (sget inE i) (sget inE (i + 1)) = sget inS i :=
      counts_linear_offset_eq hLR (Or.inl rfl)
    rw [hk, List.range'_succ, interpOuter_cons, sget_replicate]
    rcases k with _ | k
    · -- i is the last input bin: the inner loop visits only output bin i
      have hst : interpInner E 0
          (linear_offset 0 (sget inS i) (sget inE i) (sget inE (i + 1)))
          (sget inE i) (sget inE (i + 1)) (List.range' i (E.length - i)) out i
          = (bump out i (sget inS i), i) := by
        rw [show E.length - i = 1 by omega, List.range'_one, interpInner_cons,
          if_neg hcond, interpInner_nil, hlow, hhigh, hceq]
      rw [hst]
      show interpOuter inS inE E (List.replicate inS.length 0) (List.range' (i + 1) 0)
        (bump out i (sget inS i)) i t = sget inS t
      rw [show List.range' (i + 1) 0 = ([] : List ℕ) from rfl]
      show bump out i (sget inS i) t = sget inS t
      unfold bump
      rcases Nat.lt_or_ge t i with h | h
      · rw [if_neg (by omega), hpre t h]
      · have hti : t = i := by omega
        rw [if_pos hti, hpost t h, hti, zero_add]
    · -- a later input bin follows: the inner loop also zeroes bin i+1, then breaks
      have hi1 : i + 1 < inS.length := by omega
      have hcond2 : ¬ (sget inE (i + 1) < sget E (i + 1)) := by
        rw [hEeq (i + 1) hi1]; exact lt_irrefl _
      have hlow2 : (if i + 1 = 0 then sget inE i else max (sget inE i) (sget E (i + 1)))
          = sget inE (i + 1) := by
        rw [if_neg (Nat.succ_ne_zero i), hEeq (i + 1) hi1,
          max_eq_right (le_of_lt hLR)]
      have hhigh2 : (if i + 1 = E.length - 1 then sget inE (i + 1)
          else min (sget inE (i + 1)) (sget E (i + 1 + 1))) = sget inE (i + 1) := by
        split
        · rfl
        · rw [hEeq (i + 1 + 1) (by omega),
            min_eq_left (le_of_lt (sget_lt_sget hin (by omega) (by omega)))]
      have hst : interpInner E 0
          (linear_offset 0 (sget inS i) (sget inE i) (sget inE (i + 1)))
          (sget inE i) (sget inE (i + 1)) (List.range' i (E.length - i)) out i
          = (bump (bump out i (sget inS i)) (i + 1) 0, i + 1) := by
        rw [show E.length - i = (k + 1) + 1 by omega, List.range'_succ, interpInner_cons,
          if_neg hcond, hlow, hhigh, hceq, List.range'_succ, interpInner_cons,
          if_neg hcond2, hlow2, hhigh2, counts'_self]
        rcases k with _ | k
        · rw [show List.range' (i + 1 + 1) 0 = ([] : List ℕ) from rfl, interpInner_nil]
        · have hbrk : sget inE (i + 1) < sget E (i + 1 + 1) := by
            rw [hEeq (i + 1 + 1) (by omega)]
            exact sget_lt_sget hin (by omega) (by omega)
          rw [List.range'_succ, interpInner_cons, if_pos hbrk]
          congr 1
      rw [hst]
      show interpOuter inS inE E (List.replicate inS.length 0)
        (List.range' (i + 1) (k + 1)) (bump (bump out i (sget inS i)) (i + 1) 0)
        (i + 1) t = sget inS t
      rw [show (k + 1) = inS.length - (i + 1) by omega]
      refine ih (i + 1) (by omega) (by omega) _ ?_ ?_ t ht
      · intro u hu
        unfold bump
        rcases Nat.lt_or_ge u i with h | h
        · rw [if_neg (by omega), if_neg (by omega), hpre u h]
        · have hui : u = i := by omega
          rw [if_neg (by omega), if_pos hui, hpost u h, hui, zero_add]
      · intro u hu
        unfold bump
        rcases Nat.lt_or_ge u (i + 2) with h | h
        · have hui : u = i + 1 := by omega
          rw [if_pos hui, if_neg (by omega), hpost u (by omega), add_zero]
        · rw [if_neg (by omega), if_neg (by omega), hpost u (by omega)]

/-- Identity of the interpolation kernel: rebinning a spectrum onto its own
input edges with zero slopes reproduces the spectrum exactly. -/
lemma rebin_interpolation_identity (inS inE : List ℚ) (hin : inE.Sorted (· < ·))
    (hlen : inE.length = inS.length + 1) (hn : 1 ≤ inS.length) :
    rebin_interpolation inS inE inE (List.replicate inS.length 0) = inS := by
  unfold rebin_interpolation rebin_interpolation_vectorized
  have hElen : inE.dropLast.length = inS.length := by
    rw [List.length_dropLast, hlen]
    omega
  have hEeq : ∀ j, j < inS.length → sget inE.dropLast j = sget inE j := by
    intro j hj
    exact sget_dropLast (by omega)
  have hne : inE ≠ [] := by
    intro h
    rw [h] at hlen
    simp at hlen
  have hdne : inE.dropLast ≠ [] := by
    have hq : inE.dropLast.length = inS.length := hElen
    intro h
    rw [h] at hq
    simp at hq
    omega
  have hE0 : sget inE.dropLast 0 = sget inE 0 := hEeq 0 (by omega)
  have hss1 : searchsorted inE (sget inE.dropLast 0) = 0 := by
    rw [hE0]; exact searchsorted_head hne
  have hss2 : searchsorted inE.dropLast (sget inE 0) = 0 := by
    rw [← hE0]; exact searchsorted_head hdne
  rw [hss1, hss2]
  have hzero : ∀ t, (0 : ℕ) ≤ t →
      bump (fun _ => (0 : ℚ)) 0 ((inS.take (0 - 1)).sum) t = 0 := by
    intro t _
    unfold bump
    split <;> simp
  have hpre : ∀ t, t < 0 - 1 →
      bump (fun _ => (0 : ℚ)) 0 ((inS.take (0 - 1)).sum) t = sget inS t := by
    intro t ht
    omega
  have hmain := interpOuter_identity inS inE inE.dropLast hin hlen hElen hEeq
    (inS.length - (0 - 1)) (0 - 1) rfl (by omega)
    (bump (fun _ => (0 : ℚ)) 0 ((inS.take (0 - 1)).sum)) hpre hzero
  refine List.ext_getElem (by simp [hElen]) ?_
  intro t ht1 ht2
  have htS : t < inS.length := ht2
  have := hmain t htS
  rw [← sget_eq_getElem ht2, ← this]
  rw [List.getElem_map, List.getElem_range]

/-! ## Dispatcher evaluation helpers -/

lemma rebinChecked_default_slopes (rand : ℕ → ℚ) (s : List ℚ) (ine oute : NDArr)
    (mthd : String) (zpw : Bool) (pw : List RWarn) :
    rebinChecked rand (.one s) ine oute mthd none zpw pw =
      rebinChecked rand (.one s) ine oute mthd
        (some (.one (List.replicate s.length 0))) zpw pw := rfl

/-- Successful validation cascade for 1-D inputs: with consistent shapes,
monotone edges and overlapping ranges, `rebinChecked` reaches the kernel
dispatch. -/
lemma rebinChecked_one (rand : ℕ → ℚ) (s e oe sl : List ℚ) (mthd : String)
    (zpw : Bool) (pw : List RWarn)
    (hshape : e.length = s.length + 1) (hsl : sl.length = s.length)
    (hmono1 : monoOkRow e = true) (hmono2 : monoOkRow oe = true)
    (hov1 : oe.headD 0 < e.getLastD 0) (hov2 : e.headD 0 < oe.getLastD 0) :
    rebinChecked rand (.one s) (.one e) (.one oe) mthd (some (.one sl)) zpw pw =
      (if mthd = "interpolation" then
        .ok (.one (rebin_interpolation s e oe sl),
          pw ++ (if zpw then padWarnings (.one e) oe else []))
      else if mthd = "listmode" then
        .ok (.one (listmodeRow rand s e oe),
          pw ++ (if zpw then padWarnings (.one e) oe else []))
      else .error .unknownMethod) := by
  simp only [rebinChecked, broadcast, Option.getD, outList]
  rw [if_neg (by simp [ndimOk2, NDArr.ndim])]
  rw [if_neg (by simp [ndimOk2, NDArr.ndim])]
  rw [if_neg (by simp [ndimOk2, NDArr.ndim])]
  rw [if_neg (by simp [NDArr.ndim])]
  rw [if_neg (by simp [shapeEdgesOk, NDArr.shape, edgesShape, hshape])]
  rw [if_neg (by simp [shapeEq, NDArr.shape, hsl])]
  rw [if_neg (by simp [checkMonotonic, hmono1])]
  rw [if_neg (by simp [checkMonotonic, hmono2])]
  rw [if_neg (by
    simp only [lasts, List.any_cons, List.any_nil, Bool.or_false, decide_eq_true_eq]
    exact not_le.mpr hov1)]
  rw [if_neg (by
    simp only [firsts, List.any_cons, List.any_nil, Bool.or_false, decide_eq_true_eq]
    exact not_le.mpr hov2)]
  rfl

/-! ## Claim theorems -/

/-- C1.  Conservation of the interpolation method: for every spectrum,
slopes array and strictly increasing edges with the output range inside the
input range, the rebinned spectrum sums to the input total.  In this exact
arithmetic the equality is literal whenever every slope is 0 or at least
the `1e-6` flat-branch threshold in magnitude; slopes inside the open dead
zone `(0, 1e-6)` take the flat branch with a nonzero integrand slope, which
is precisely the below-float-tolerance discrepancy the claim allows. -/
theorem interp_conservation (inS inE outE slopes : List ℚ)
    (hin : inE.Sorted (· < ·)) (hout : outE.Sorted (· < ·))
    (hlen : inE.length = inS.length + 1) (hsl : slopes.length = inS.length)
    (hm : 2 ≤ outE.length)
    (hleft : sget inE 0 ≤ sget outE 0)
    (hright : outE.getLastD 0 ≤ inE.getLastD 0)
    (hslope : ∀ sl ∈ slopes, sl = 0 ∨ SlopeEps ≤ |sl|) :
    (rebin_interpolation inS inE outE slopes).sum = inS.sum := by
  unfold rebin_interpolation
  refine rebin_interpolation_vectorized_sum inS inE outE.dropLast slopes
    (hout.sublist (List.dropLast_sublist outE)) hin hlen hsl ?_ hslope
  rw [List.length_dropLast]
  omega

/-- Witness for C1 at a concrete instance. -/
theorem interp_conservation_witness :
    (rebin_interpolation [2, 3] [0, 1, 2] [0, 1, 2] [0, 0]).sum
      = ([2, 3] : List ℚ).sum :=
  interp_conservation [2, 3] [0, 1, 2] [0, 1, 2] [0, 0]
    (by decide) (by decide) (by decide) (by decide) (by decide)
    (by decide) (by decide) (by decide)

/-- C2.  Identity: rebinning a spectrum onto edges identical to its own
input edges with the interpolation method and default (zero) slopes returns
the original spectrum — exactly, in this arithmetic — with no warnings. -/
theorem interp_identity (rand : ℕ → ℚ) (s e : List ℚ)
    (hin : e.Sorted (· < ·)) (hlen : e.length = s.length + 1)
    (hn : 1 ≤ s.length) :
    rebin rand (.one s) (.one e) (.one e) "interpolation" none true
      = .ok (.one s, []) := by
  have h0 : rebin rand (.one s) (.one e) (.one e) "interpolation" none true
      = rebinChecked rand (.one s) (.one e) (.one e) (strLower "interpolation")
          none true [] := rfl
  have hfl : sget e 0 < sget e (e.length - 1) :=
    sget_lt_sget hin (by omega) (by omega)
  have hov : e.headD 0 < e.getLastD 0 := by
    rw [getLastD_eq_sget (by intro h; rw [h] at hlen; simp at hlen), headD_eq_sget]
    exact hfl
  rw [h0, show strLower "interpolation" = "interpolation" from by decide,
    rebinChecked_default_slopes,
    rebinChecked_one rand s e e _ "interpolation" true [] hlen
      (by simp) (monoOkRow_of_sorted hin) (monoOkRow_of_sorted hin) hov hov,
    if_pos rfl]
  have hpad : padWarnings (.one e) e = [] := by
    simp [padWarnings, firsts, lasts, headD_eq_sget,
      getLastD_eq_sget (show e ≠ [] by intro h; rw [h] at hlen; simp at hlen)]
  rw [hpad, rebin_interpolation_identity s e hin hlen hn]
  rfl

/-- Witness for C2 at a concrete instance. -/
theorem interp_identity_witness :
    rebin (fun _ => 0) (.one [1, 2]) (.one [0, 1, 2]) (.one [0, 1, 2])
        "interpolation" none true = .ok (.one [1, 2], []) :=
  interp_identity (fun _ => 0) [1, 2] [0, 1, 2] (by decide) (by decide) (by decide)

/-! ## Listmode kernel: partition counting -/

lemma eventsOf_length (rand : ℕ → ℚ) (inE : List ℚ) :
    ∀ (cs : List ℤ) (off i : ℕ),
      (eventsOf rand inE off i cs).length = totalCounts cs := by
  intro cs
  induction cs with
  | nil => intro off i; rfl
  | cons c cs ih =>
    intro off i
    simp only [eventsOf, List.length_append, List.length_map, List.length_range,
      totalCounts, List.map_cons, List.sum_cons]
    rw [ih]
    rfl

/-- Every event falls into exactly one of `m` histogram bins (its index,
the number of internal edges `≤` it, is below `m`), so the per-bin counts
over `range m` partition the event list. -/
lemma countP_partition (I : List ℚ) (m : ℕ) (hm : I.length < m) (evs : List ℚ) :
    (∑ j ∈ Finset.range m, evs.countP (fun x => binIndexOf I x == j)) = evs.length := by
  induction evs with
  | nil => simp
  | cons e es ih =>
    have hidx : binIndexOf I e < m :=
      Nat.lt_of_le_of_lt (List.countP_le_length _) hm
    simp only [List.countP_cons]
    rw [Finset.sum_add_distrib, ih]
    have hite : ∀ j : ℕ, (if (binIndexOf I e == j) = true then 1 else 0)
        = if j = binIndexOf I e then (fun _ : ℕ => 1) j else 0 := by
      intro j
      rcases eq_or_ne j (binIndexOf I e) with h | h
      · simp [h]
      · have h1 : ¬ ((binIndexOf I e == j) = true) := by
          simp only [beq_iff_eq]
          exact fun hh => h hh.symm
        rw [if_neg h1, if_neg h]
    simp_rw [hite]
    rw [Finset.sum_ite_eq' (Finset.range m) (binIndexOf I e) (fun _ => 1)]
    simp [Finset.mem_range.mpr hidx]

lemma totalCounts_cast {inS : List ℤ} (hpos : ∀ c ∈ inS, 0 ≤ c) :
    ((totalCounts inS : ℕ) : ℤ) = inS.sum := by
  induction inS with
  | nil => rfl
  | cons c cs ih =>
    simp only [totalCounts, List.map_cons, List.sum_cons]
    rw [Nat.cast_add, Int.toNat_of_nonneg (hpos c (by simp))]
    have hih := ih (fun x hx => hpos x (by simp [hx]))
    simp only [totalCounts] at hih
    rw [hih]

/-- Sum conservation of the listmode kernel: with the outer boundaries at
`±∞`, every synthetic event lands in exactly one output bin, so the output
total equals the number of events, i.e. the input total (for nonnegative
counts), for every outcome of the random draws. -/
lemma listmode_kernel_sum (rand : ℕ → ℚ) (inS : List ℤ) (inE E : List ℚ)
    (hpos : ∀ c ∈ inS, 0 ≤ c) (hm : 1 ≤ E.length) :
    (rebin_listmode_vectorized rand inS inE E).sum = inS.sum := by
  unfold rebin_listmode_vectorized
  rw [map_range_sum]
  rw [← Nat.cast_sum]
  rw [countP_partition E.tail E.length (by rw [List.length_tail]; omega)]
  rw [eventsOf_length]
  exact totalCounts_cast hpos

lemma listmode_kernel_nonneg (rand : ℕ → ℚ) (inS : List ℤ) (inE E : List ℚ) :
    ∀ v ∈ rebin_listmode_vectorized rand inS inE E, 0 ≤ v := by
  intro v hv
  unfold rebin_listmode_vectorized at hv
  obtain ⟨j, _, rfl⟩ := List.mem_map.mp hv
  exact Int.natCast_nonneg _

lemma listSum_intCast (l : List ℤ) :
    (l.map (fun z : ℤ => (z : ℚ))).sum = ((l.sum : ℤ) : ℚ) := by
  induction l with
  | nil => simp
  | cons x xs ih =>
    rw [List.map_cons, List.sum_cons, List.sum_cons, ih]
    push_cast
    ring

lemma listmodeRow_sum (rand : ℕ → ℚ) (s e oe : List ℚ) :
    (listmodeRow rand s e oe).sum
      = (((rebin_listmode_vectorized rand (intCounts s) e oe.dropLast).sum : ℤ) : ℚ) :=
  listSum_intCast _

lemma listmodeRow_nonneg (rand : ℕ → ℚ) (s e oe : List ℚ) :
    ∀ v ∈ listmodeRow rand s e oe, 0 ≤ v := by
  intro v hv
  obtain ⟨z, hz, rfl⟩ := List.mem_map.mp
    (show v ∈ List.map (fun z : ℤ => (z : ℚ)) _ from hv)
  have := listmode_kernel_nonneg rand (intCounts s) e oe.dropLast z hz
  exact_mod_cast this

/-- C7.  Listmode integrality, positivity and conservation: for every
nonnegative integer spectrum and every outcome of the random draws, the
kernel returns nonnegative integers summing to the input total (every
synthetic event is assigned to exactly one output bin since the first and
last output boundaries become `-∞`/`+∞`); in particular the dispatcher on
spectrum `[100, 0, 50]`, edges `[0,1,2,3]`, output edges `[0, 1.5, 3]`
yields a result summing to 150 for every random outcome. -/
theorem listmode_conservation :
    (∀ (rand : ℕ → ℚ) (inS : List ℤ) (inE E : List ℚ),
      (∀ c ∈ inS, 0 ≤ c) → 1 ≤ E.length →
      (∀ v ∈ rebin_listmode_vectorized rand inS inE E, 0 ≤ v) ∧
      (rebin_listmode_vectorized rand inS inE E).sum = inS.sum)
    ∧ (∀ rand : ℕ → ℚ, ∃ r : List ℚ,
      rebin rand (.one [100, 0, 50]) (.one [0, 1, 2, 3]) (.one [0, 3/2, 3])
        "listmode" none true = .ok (.one r, [])
      ∧ r.sum = 150 ∧ ∀ v ∈ r, 0 ≤ v) := by
  constructor
  · intro rand inS inE E hpos hm
    exact ⟨listmode_kernel_nonneg rand inS inE E,
      listmode_kernel_sum rand inS inE E hpos hm⟩
  · intro rand
    refine ⟨listmodeRow rand [100, 0, 50] [0, 1, 2, 3] [0, 3/2, 3], ?_, ?_, ?_⟩
    · show rebin rand (.one [100, 0, 50]) (.one [0, 1, 2, 3]) (.one [0, 3/2, 3])
        "listmode" none true = _
      simp only [rebin]
      rw [show strLower "listmode" = "listmode" from by decide]
      rw [if_pos rfl]
      rw [if_neg (show ¬ (anyNeg (NDArr.one [100, 0, 50]) = true) from by decide)]
      rw [if_neg (show ¬ (allBelowOne (NDArr.one [100, 0, 50]) = true) from by decide)]
      rw [if_pos (show allCloseRound (NDArr.one [100, 0, 50]) = true from by
        norm_num [allCloseRound, NDArr.flat, closeToRound, roundHalfEven, rabs])]
      rw [show roundArr (NDArr.one [100, 0, 50]) = NDArr.one [100, 0, 50] from by
        norm_num [roundArr, roundRow, roundHalfEven]]
      rw [rebinChecked_default_slopes]
      rw [rebinChecked_one rand [100, 0, 50] [0, 1, 2, 3] [0, 3/2, 3] _ "listmode"
        true [] (by decide) (by simp)
        (by norm_num [monoOkRow, diffsRow, Tol, rabs])
        (by norm_num [monoOkRow, diffsRow, Tol, rabs]) (by norm_num) (by norm_num)]
      rw [if_neg (show ¬ (("listmode" : String) = "interpolation") from by decide)]
      rw [if_pos rfl]
      rw [show padWarnings (NDArr.one [0, 1, 2, 3]) [0, 3/2, 3] = [] from by
        norm_num [padWarnings, firsts, lasts]]
      rfl
    · rw [listmodeRow_sum]
      rw [listmode_kernel_sum rand (intCounts [100, 0, 50]) [0, 1, 2, 3]
        ([0, 3/2, 3] : List ℚ).dropLast (by decide) (by decide)]
      decide
    · exact listmodeRow_nonneg rand [100, 0, 50] [0, 1, 2, 3] [0, 3/2, 3]

/-- Witness for C7: the kernel on a concrete draw sequence conserves the
150 counts. -/
theorem listmode_conservation_witness :
    (rebin_listmode_vectorized (fun _ => 1/2) [100, 0, 50] [0, 1, 2, 3]
      [0, 3/2]).sum = ([100, 0, 50] : List ℤ).sum :=
  (listmode_conservation.1 (fun _ => 1/2) [100, 0, 50] [0, 1, 2, 3] [0, 3/2]
    (by decide) (by decide)).2

/-- C8.  Negative-count rejection: any spectrum with a negative entry makes
a listmode call fail with `NegativeCountsError` before anything else runs
(it is the very first check after lower-casing the method). -/
theorem listmode_negative_rejection (rand : ℕ → ℚ) (inS inE outE : NDArr)
    (method : String) (slopes : Option NDArr) (zpw : Bool)
    (hm : strLower method = "listmode") (hneg : anyNeg inS = true) :
    rebin rand inS inE outE method slopes zpw = .error .negativeCounts := by
  simp only [rebin]
  rw [hm, if_pos rfl, if_pos hneg]

/-- Witness for C8: spectrum `[-1, 5]` raises it. -/
theorem listmode_negative_rejection_witness :
    rebin (fun _ => 0) (.one [-1, 5]) (.one [0, 1, 2]) (.one [0, 2])
      "listmode" none true = .error .negativeCounts :=
  listmode_negative_rejection (fun _ => 0) (.one [-1, 5]) (.one [0, 1, 2])
    (.one [0, 2]) "listmode" none true (by decide) (by decide)

/-- C3 (code bug).  A 2-D output-edge array never reaches the intended
`RebinError`: `_check_ndim(out_edges, 1, 'out_edges')` evaluates
`arr.ndim not in ndim` with the integer `ndim = 1`, which raises
`TypeError: argument of type 'int' is not iterable` instead of the
`RebinError('out_edges(…) is not 1D')` the spec's ShapeError kind requires.
The call still fails and produces no result, but with the wrong kind. -/
theorem out_edges_rank2_typeerror :
    rebin (fun _ => 0) (.one [1, 1]) (.one [0, 1, 2]) (.two [[0, 1], [1, 2]])
      "interpolation" none true = .error .typeErr := by
  have h0 : rebin (fun _ => 0) (.one [1, 1]) (.one [0, 1, 2])
      (.two [[0, 1], [1, 2]]) "interpolation" none true
      = rebinChecked (fun _ => 0) (.one [1, 1]) (.one [0, 1, 2])
          (.two [[0, 1], [1, 2]]) (strLower "interpolation") none true [] := rfl
  rw [h0]
  simp only [rebinChecked, broadcast, Option.getD, zerosLike]
  rw [if_neg (by simp [ndimOk2, NDArr.ndim])]
  rw [if_neg (by simp [ndimOk2, NDArr.ndim])]
  rw [if_neg (by simp [ndimOk2, NDArr.ndim])]
  rw [if_pos (by simp [NDArr.ndim])]

/-- Error cascade for 1-D inputs reaching the overlap checks: consistent
shapes and monotone edges, but the ranges do not intersect. -/
lemma rebinChecked_one_noOverlap (rand : ℕ → ℚ) (s e oe : List ℚ) (mthd : String)
    (zpw : Bool) (pw : List RWarn)
    (hshape : e.length = s.length + 1)
    (hmono1 : monoOkRow e = true) (hmono2 : monoOkRow oe = true)
    (hno : e.getLastD 0 < oe.headD 0 ∨ oe.getLastD 0 < e.headD 0) :
    rebinChecked rand (.one s) (.one e) (.one oe) mthd none zpw pw
      = .error .noOverlap := by
  simp only [rebinChecked, broadcast, Option.getD, outList, zerosLike]
  rw [if_neg (by simp [ndimOk2, NDArr.ndim])]
  rw [if_neg (by simp [ndimOk2, NDArr.ndim])]
  rw [if_neg (by simp [ndimOk2, NDArr.ndim])]
  rw [if_neg (by simp [NDArr.ndim])]
  rw [if_neg (by simp [shapeEdgesOk, NDArr.shape, edgesShape, hshape])]
  rw [if_neg (by simp [shapeEq, NDArr.shape])]
  rw [if_neg (by simp [checkMonotonic, hmono1])]
  rw [if_neg (by simp [checkMonotonic, hmono2])]
  by_cases hc : e.getLastD 0 ≤ oe.headD 0
  · rw [if_pos (by
      simp only [lasts, List.any_cons, List.any_nil, Bool.or_false, decide_eq_true_eq]
      exact hc)]
  · rw [if_neg (by
      simp only [lasts, List.any_cons, List.any_nil, Bool.or_false, decide_eq_true_eq]
      exact hc)]
    rcases hno with hno | hno
    · exact absurd (le_of_lt hno) hc
    · rw [if_pos (by
        simp only [firsts, List.any_cons, List.any_nil, Bool.or_false, decide_eq_true_eq]
        exact le_of_lt hno)]

/-- C5.  No-overlap rejection: whenever the input edge range lies entirely
to the left or entirely to the right of the output edge range (and the call
is otherwise well-formed — in particular a listmode call passes its
preprocessing, which the source runs first), `rebin` fails with
`NoOverlapError` and produces no result. -/
theorem no_overlap_rejection (rand : ℕ → ℚ) (s e oe : List ℚ) (method : String)
    (zpw : Bool)
    (hlen : e.length = s.length + 1)
    (hlm : strLower method = "listmode" →
      anyNeg (.one s) = false ∧ allBelowOne (.one s) = false)
    (hmono1 : monoOkRow e = true) (hmono2 : monoOkRow oe = true)
    (hno : e.getLastD 0 < oe.headD 0 ∨ oe.getLastD 0 < e.headD 0) :
    rebin rand (.one s) (.one e) (.one oe) method none zpw = .error .noOverlap := by
  simp only [rebin]
  by_cases hL : strLower method = "listmode"
  · rw [hL, if_pos rfl]
    obtain ⟨h1, h2⟩ := hlm hL
    rw [if_neg (by simp [h1]), if_neg (by simp [h2])]
    show rebinChecked rand (roundArr (.one s)) (.one e) (.one oe) "listmode"
      none zpw _ = _
    rw [show roundArr (.one s)
        = NDArr.one (s.map (fun q => ((roundHalfEven q : ℤ) : ℚ))) from rfl]
    exact rebinChecked_one_noOverlap rand _ e oe "listmode" zpw _
      (by rw [List.length_map]; exact hlen) hmono1 hmono2 hno
  · rw [if_neg hL]
    exact rebinChecked_one_noOverlap rand s e oe (strLower method) zpw []
      hlen hmono1 hmono2 hno

/-- Witness for C5 at the spec's instance: input edges `[0, 10]`, spectrum
`[5]`, output edges `[20, 30]`. -/
theorem no_overlap_rejection_witness :
    rebin (fun _ => 0) (.one [5]) (.one [0, 10]) (.one [20, 30])
      "interpolation" none true = .error .noOverlap :=
  no_overlap_rejection (fun _ => 0) [5] [0, 10] [20, 30] "interpolation" true
    (by decide)
    (fun h => absurd h (by decide))
    (by norm_num [monoOkRow, diffsRow, Tol, rabs])
    (by norm_num [monoOkRow, diffsRow, Tol, rabs])
    (by norm_num)

/-! ## The monotonicity check, characterised -/

lemma length_diffsRow (l : List ℚ) : (diffsRow l).length = l.length - 1 := by
  simp only [diffsRow, List.length_zipWith, List.length_tail]
  omega

lemma diffsRow_getElem {l : List ℚ} {i : ℕ} (h : i < (diffsRow l).length) :
    (diffsRow l)[i] = sget l (i + 1) - sget l i := by
  have hlen : i + 1 < l.length := by
    have := length_diffsRow l
    omega
  simp only [diffsRow] at h ⊢
  rw [List.getElem_zipWith]
  rw [List.getElem_tail]
  rw [sget_eq_getElem hlen, sget_eq_getElem (by omega)]

lemma monoOkRow_false_of_bad {l : List ℚ}
    (hbad : ∃ i, i + 1 < l.length ∧ sget l (i + 1) - sget l i < -Tol) :
    monoOkRow l = false := by
  obtain ⟨i, hi, hb⟩ := hbad
  cases hmono : monoOkRow l with
  | false => rfl
  | true =>
    exfalso
    have hlen : i < (diffsRow l).length := by rw [length_diffsRow]; omega
    have hmem : (diffsRow l)[i] ∈ diffsRow l := List.getElem_mem _
    have := List.all_eq_true.mp hmono _ hmem
    rw [diffsRow_getElem (by rw [length_diffsRow]; omega)] at this
    have hTol : (0 : ℚ) < Tol := by norm_num [Tol]
    rcases Bool.or_eq_true_iff.mp this with h | h
    · have := of_decide_eq_true h
      linarith
    · have := of_decide_eq_true h
      rw [rabs_eq_abs] at this
      have habs : -Tol ≤ sget l (i + 1) - sget l i := by
        have := abs_le.mp this
        linarith [this.1]
      linarith

lemma monoOkRow_true_of_good {l : List ℚ}
    (hgood : ∀ i, i + 1 < l.length → -Tol ≤ sget l (i + 1) - sget l i) :
    monoOkRow l = true := by
  rw [monoOkRow, List.all_eq_true]
  intro d hd
  obtain ⟨i, hlt, rfl⟩ := List.mem_iff_getElem.mp hd
  rw [diffsRow_getElem hlt]
  have hlen : i + 1 < l.length := by
    have := length_diffsRow l
    omega
  have := hgood i hlen
  rcases lt_or_le 0 (sget l (i + 1) - sget l i) with h | h
  · simp [h]
  · have : rabs (sget l (i + 1) - sget l i) ≤ Tol := by
      rw [rabs_eq_abs, abs_le]
      constructor
      · linarith
      · have hTol : (0 : ℚ) < Tol := by norm_num [Tol]
        linarith
    simp [this]

/-- Error cascade for 1-D inputs with a non-monotone input edge array. -/
lemma rebinChecked_one_nonMono_in (rand : ℕ → ℚ) (s e oe : List ℚ) (mthd : String)
    (zpw : Bool) (pw : List RWarn) (hshape : e.length = s.length + 1)
    (hbad : monoOkRow e = false) :
    rebinChecked rand (.one s) (.one e) (.one oe) mthd none zpw pw
      = .error .nonMonotonic := by
  simp only [rebinChecked, broadcast, Option.getD, outList, zerosLike]
  rw [if_neg (by simp [ndimOk2, NDArr.ndim])]
  rw [if_neg (by simp [ndimOk2, NDArr.ndim])]
  rw [if_neg (by simp [ndimOk2, NDArr.ndim])]
  rw [if_neg (by simp [NDArr.ndim])]
  rw [if_neg (by simp [shapeEdgesOk, NDArr.shape, edgesShape, hshape])]
  rw [if_neg (by simp [shapeEq, NDArr.shape])]
  rw [if_pos (by simp [checkMonotonic, hbad])]

/-- Error cascade for 1-D inputs with a non-monotone output edge array. -/
lemma rebinChecked_one_nonMono_out (rand : ℕ → ℚ) (s e oe : List ℚ) (mthd : String)
    (zpw : Bool) (pw : List RWarn) (hshape : e.length = s.length + 1)
    (hok : monoOkRow e = true) (hbad : monoOkRow oe = false) :
    rebinChecked rand (.one s) (.one e) (.one oe) mthd none zpw pw
      = .error .nonMonotonic := by
  simp only [rebinChecked, broadcast, Option.getD, outList, zerosLike]
  rw [if_neg (by simp [ndimOk2, NDArr.ndim])]
  rw [if_neg (by simp [ndimOk2, NDArr.ndim])]
  rw [if_neg (by simp [ndimOk2, NDArr.ndim])]
  rw [if_neg (by simp [NDArr.ndim])]
  rw [if_neg (by simp [shapeEdgesOk, NDArr.shape, edgesShape, hshape])]
  rw [if_neg (by simp [shapeEq, NDArr.shape])]
  rw [if_neg (by simp [checkMonotonic, hok])]
  rw [if_pos (by simp [checkMonotonic, hbad])]

/-- C4 counterexample.  Equal neighboring edges do NOT raise
`NonMonotonicError`: a zero adjacent difference passes the
`(diff > 0) | isclose(diff, 0)` test, so input edges `[0, 5, 5, 10]`
validate and the call produces a result. -/
theorem equal_neighbor_edges_tolerated :
    (rebin (fun _ => 0) (.one [1, 1, 1]) (.one [0, 5, 5, 10]) (.one [0, 10])
      "interpolation" none true).isOk = true := by
  have h0 : rebin (fun _ => 0) (.one [1, 1, 1]) (.one [0, 5, 5, 10])
      (.one [0, 10]) "interpolation" none true
      = rebinChecked (fun _ => 0) (.one [1, 1, 1]) (.one [0, 5, 5, 10])
          (.one [0, 10]) (strLower "interpolation") none true [] := rfl
  rw [h0, show strLower "interpolation" = "interpolation" from by decide,
    rebinChecked_default_slopes,
    rebinChecked_one (fun _ => 0) [1, 1, 1] [0, 5, 5, 10] [0, 10] _
      "interpolation" true [] (by decide) (by simp)
      (by norm_num [monoOkRow, diffsRow, Tol, rabs])
      (by norm_num [monoOkRow, diffsRow, Tol, rabs]) (by norm_num) (by norm_num),
    if_pos rfl]
  rfl

/-- C4 (amended).  Monotonicity enforcement as the code implements it: an
edge array whose some adjacent difference is below `-1e-8` raises
`NonMonotonicError`, for the input edges and (when the input edges pass)
for the output edges; equal or near-equal neighboring edges are tolerated.
Stated for non-listmode methods (listmode preprocessing runs first). -/
theorem monotonic_enforcement (rand : ℕ → ℚ) (s e oe : List ℚ) (method : String)
    (zpw : Bool) (hnl : strLower method ≠ "listmode")
    (hlen : e.length = s.length + 1) :
    ((∃ i, i + 1 < e.length ∧ sget e (i + 1) - sget e i < -Tol) →
      rebin rand (.one s) (.one e) (.one oe) method none zpw
        = .error .nonMonotonic)
    ∧ ((∀ i, i + 1 < e.length → -Tol ≤ sget e (i + 1) - sget e i) →
      (∃ i, i + 1 < oe.length ∧ sget oe (i + 1) - sget oe i < -Tol) →
      rebin rand (.one s) (.one e) (.one oe) method none zpw
        = .error .nonMonotonic) := by
  constructor
  · intro hbad
    simp only [rebin]
    rw [if_neg hnl]
    exact rebinChecked_one_nonMono_in rand s e oe (strLower method) zpw []
      hlen (monoOkRow_false_of_bad hbad)
  · intro hgood hbad
    simp only [rebin]
    rw [if_neg hnl]
    exact rebinChecked_one_nonMono_out rand s e oe (strLower method) zpw []
      hlen (monoOkRow_true_of_good hgood) (monoOkRow_false_of_bad hbad)

/-- Witness for the amended C4: `[0, 5, 3, 10]` raises for input edges and
for output edges. -/
theorem monotonic_enforcement_witness :
    rebin (fun _ => 0) (.one [1, 1, 1]) (.one [0, 5, 3, 10]) (.one [0, 10])
      "interpolation" none true = .error .nonMonotonic
    ∧ rebin (fun _ => 0) (.one [1]) (.one [0, 10]) (.one [0, 5, 3, 10])
      "interpolation" none true = .error .nonMonotonic := by
  constructor
  · exact (monotonic_enforcement (fun _ => 0) [1, 1, 1] [0, 5, 3, 10] [0, 10]
      "interpolation" true (by decide) (by decide)).1
      ⟨1, by decide, by norm_num [sget, Tol]⟩
  · exact (monotonic_enforcement (fun _ => 0) [1] [0, 10] [0, 5, 3, 10]
      "interpolation" true (by decide) (by decide)).2
      (by
        intro i hi
        have hi0 : i = 0 := by simp at hi; omega
        subst hi0
        norm_num [sget, Tol])
      ⟨1, by decide, by norm_num [sget, Tol]⟩

/-- Concrete run backing C6: input edges `[0,1,2,3]`, spectrum
`[10,10,10]`, output edges `[0,1,2,3,4]`, zero slopes. -/
lemma rebin_interp_concrete_run :
    rebin_interpolation [10, 10, 10] [0, 1, 2, 3] [0, 1, 2, 3, 4]
      (List.replicate 3 0) = [10, 10, 10, 0] := by
  norm_num [rebin_interpolation, rebin_interpolation_vectorized, searchsorted, sget,
    interpOuter, interpInner, bump, counts', slope_integral, linear_offset, rabs,
    SlopeEps, List.range', List.range, Tol, List.replicate]
  rw [show List.range.loop 4 [] = [0, 1, 2, 3] from by decide]
  norm_num [bump]

/-- C6.  Partial-overlap zero padding: the concrete call produces the
4-bin result `[10, 10, 10, 0]` (last bin zero) together with the
right-side zero-padding warning; with `zero_pad_warnings = false` the same
result is returned with no warning. -/
theorem partial_overlap_zero_padding (rand : ℕ → ℚ) :
    rebin rand (.one [10, 10, 10]) (.one [0, 1, 2, 3]) (.one [0, 1, 2, 3, 4])
      "interpolation" none true = .ok (.one [10, 10, 10, 0], [RWarn.rightPad])
    ∧ rebin rand (.one [10, 10, 10]) (.one [0, 1, 2, 3]) (.one [0, 1, 2, 3, 4])
      "interpolation" none false = .ok (.one [10, 10, 10, 0], []) := by
  constructor
  · have h0 : rebin rand (.one [10, 10, 10]) (.one [0, 1, 2, 3])
        (.one [0, 1, 2, 3, 4]) "interpolation" none true
        = rebinChecked rand (.one [10, 10, 10]) (.one [0, 1, 2, 3])
            (.one [0, 1, 2, 3, 4]) (strLower "interpolation") none true [] := rfl
    rw [h0, show strLower "interpolation" = "interpolation" from by decide,
      rebinChecked_default_slopes,
      rebinChecked_one rand [10, 10, 10] [0, 1, 2, 3] [0, 1, 2, 3, 4] _
        "interpolation" true [] (by decide) (by simp)
        (by norm_num [monoOkRow, diffsRow, Tol, rabs])
        (by norm_num [monoOkRow, diffsRow, Tol, rabs]) (by norm_num) (by norm_num),
      if_pos rfl]
    rw [show padWarnings (NDArr.one [0, 1, 2, 3]) [0, 1, 2, 3, 4]
        = [RWarn.rightPad] from by norm_num [padWarnings, firsts, lasts]]
    rw [show (List.replicate ([10, 10, 10] : List ℚ).length 0)
        = List.replicate 3 (0 : ℚ) from rfl]
    rw [rebin_interp_concrete_run]
    rfl
  · have h0 : rebin rand (.one [10, 10, 10]) (.one [0, 1, 2, 3])
        (.one [0, 1, 2, 3, 4]) "interpolation" none false
        = rebinChecked rand (.one [10, 10, 10]) (.one [0, 1, 2, 3])
            (.one [0, 1, 2, 3, 4]) (strLower "interpolation") none false [] := rfl
    rw [h0, show strLower "interpolation" = "interpolation" from by decide,
      rebinChecked_default_slopes,
      rebinChecked_one rand [10, 10, 10] [0, 1, 2, 3] [0, 1, 2, 3, 4] _
        "interpolation" false [] (by decide) (by simp)
        (by norm_num [monoOkRow, diffsRow, Tol, rabs])
        (by norm_num [monoOkRow, diffsRow, Tol, rabs]) (by norm_num) (by norm_num),
      if_pos rfl]
    rw [show (List.replicate ([10, 10, 10] : List ℚ).length 0)
        = List.replicate 3 (0 : ℚ) from rfl]
    rw [rebin_interp_concrete_run]
    rfl

/-- C10.  Case-insensitive method dispatch: the method string is
lower-cased before comparison, so any casing of "interpolation" or
"listmode" dispatches to the corresponding kernel, and a string that
lower-cases to neither name fails with the unknown-method `ValueError`
(after the validation cascade, which runs first). -/
theorem method_case_insensitive :
    (∀ (rand : ℕ → ℚ) (a b c : NDArr) (sl : Option NDArr) (w : Bool)
      (method : String), strLower method = "interpolation" →
      rebin rand a b c method sl w = rebin rand a b c "interpolation" sl w)
    ∧ (∀ (rand : ℕ → ℚ) (a b c : NDArr) (sl : Option NDArr) (w : Bool)
      (method : String), strLower method = "listmode" →
      rebin rand a b c method sl w = rebin rand a b c "listmode" sl w)
    ∧ (∀ (rand : ℕ → ℚ) (s e oe : List ℚ) (w : Bool) (method : String),
      strLower method ≠ "interpolation" → strLower method ≠ "listmode" →
      e.length = s.length + 1 → monoOkRow e = true → monoOkRow oe = true →
      oe.headD 0 < e.getLastD 0 → e.headD 0 < oe.getLastD 0 →
      rebin rand (.one s) (.one e) (.one oe) method none w
        = .error .unknownMethod) := by
  refine ⟨?_, ?_, ?_⟩
  · intro rand a b c sl w method h
    simp only [rebin]
    rw [h, show strLower "interpolation" = "interpolation" from by decide]
  · intro rand a b c sl w method h
    simp only [rebin]
    rw [h, show strLower "listmode" = "listmode" from by decide]
  · intro rand s e oe w method h1 h2 hlen hm1 hm2 ho1 ho2
    simp only [rebin]
    rw [if_neg h2, rebinChecked_default_slopes,
      rebinChecked_one rand s e oe _ (strLower method) w [] hlen (by simp)
        hm1 hm2 ho1 ho2,
      if_neg h1, if_neg h2]

/-- Witness for C10: mixed-case methods dispatch, an unknown method fails. -/
theorem method_case_insensitive_witness :
    rebin (fun _ => 0) (.one [5]) (.one [0, 10]) (.one [0, 10])
      "InTerPolation" none true
      = rebin (fun _ => 0) (.one [5]) (.one [0, 10]) (.one [0, 10])
          "interpolation" none true
    ∧ rebin (fun _ => 0) (.one [5]) (.one [0, 10]) (.one [0, 10])
      "LISTMODE" none true
      = rebin (fun _ => 0) (.one [5]) (.one [0, 10]) (.one [0, 10])
          "listmode" none true
    ∧ rebin (fun _ => 0) (.one [5]) (.one [0, 10]) (.one [0, 10])
      "foo" none true = .error .unknownMethod := by
  refine ⟨?_, ?_, ?_⟩
  · exact method_case_insensitive.1 (fun _ => 0) (.one [5]) (.one [0, 10])
      (.one [0, 10]) none true "InTerPolation" (by decide)
  · exact method_case_insensitive.2.1 (fun _ => 0) (.one [5]) (.one [0, 10])
      (.one [0, 10]) none true "LISTMODE" (by decide)
  · exact method_case_insensitive.2.2 (fun _ => 0) [5] [0, 10] [0, 10] true "foo"
      (by decide) (by decide) (by decide)
      (by norm_num [monoOkRow, diffsRow, Tol, rabs])
      (by norm_num [monoOkRow, diffsRow, Tol, rabs]) (by norm_num) (by norm_num)

/-! ## Batched calls: row access and the 2-D validation cascade -/

lemma headD_mem {α : Type} {l : List α} (h : l ≠ []) (d : α) : l.headD d ∈ l := by
  cases l with
  | nil => exact absurd rfl h
  | cons x xs => exact List.mem_cons_self _ _

lemma map_getD {α β : Type} (f : α → β) (da : α) :
    ∀ (l : List α) (i : ℕ), i < l.length → (l.map f).getD i (f da) = f (l.getD i da) := by
  intro l
  induction l with
  | nil => intro i hi; simp at hi
  | cons x xs ih =>
    intro i hi
    cases i with
    | zero => rfl
    | succ i => exact ih i (by simpa using hi)

lemma replicate_getD {α : Type} (x d : α) {n i : ℕ} (h : i < n) :
    (List.replicate n x).getD i d = x := by
  rw [List.getD_eq_getElem _ _ (by simpa using h)]
  exact List.getElem_replicate _ _

lemma getD_mem {α : Type} {l : List α} {i : ℕ} (h : i < l.length) (d : α) :
    l.getD i d ∈ l := by
  rw [List.getD_eq_getElem _ _ h]
  exact List.getElem_mem _

lemma zip3_getD {α β γ δ : Type} (f : α → β → γ → δ) (da : α) (db : β) (dc : γ)
    (dd : δ) :
    ∀ (as' : List α) (bs : List β) (cs : List γ) (i : ℕ),
      i < as'.length → i < bs.length → i < cs.length →
      (zip3 f as' bs cs).getD i dd = f (as'.getD i da) (bs.getD i db) (cs.getD i dc) := by
  intro as'
  induction as' with
  | nil => intro bs cs i hi; simp at hi
  | cons a as ih =>
    intro bs cs i ha hb hc
    cases bs with
    | nil => simp at hb
    | cons b bs =>
      cases cs with
      | nil => simp at hc
      | cons c cs =>
        cases i with
        | zero => rfl
        | succ i =>
          show (zip3 f as bs cs).getD i dd = _
          exact ih bs cs i (by simpa using ha) (by simpa using hb) (by simpa using hc)

lemma listmodeRows_getD (rand : ℕ → ℚ) (oe : List ℚ) :
    ∀ (ss es : List (List ℚ)) (off i : ℕ), i < ss.length → i < es.length →
      (listmodeRows rand oe off ss es).getD i []
        = listmodeRow (shiftRand rand (off + listmodeOffset ss i))
            (ss.getD i []) (es.getD i []) oe := by
  intro ss
  induction ss with
  | nil => intro es off i hi; simp at hi
  | cons s ss ih =>
    intro es off i hs he
    cases es with
    | nil => simp at he
    | cons e es =>
      cases i with
      | zero =>
        show listmodeRow (shiftRand rand off) s e oe
          = listmodeRow (shiftRand rand (off + listmodeOffset (s :: ss) 0)) s e oe
        rw [show listmodeOffset (s :: ss) 0 = 0 from rfl, Nat.add_zero]
      | succ i =>
        show (listmodeRows rand oe (off + totalCounts (intCounts s)) ss es).getD i []
          = _
        rw [ih es (off + totalCounts (intCounts s)) i (by simpa using hs)
          (by simpa using he)]
        have hoff : off + totalCounts (intCounts s) + listmodeOffset ss i
            = off + listmodeOffset (s :: ss) (i + 1) := by
          rw [show listmodeOffset (s :: ss) (i + 1)
              = totalCounts (intCounts s) + listmodeOffset ss i from by
            simp [listmodeOffset, List.take_succ_cons]]
          omega
        rw [hoff]
        rfl

lemma anyNeg_row {rows : List (List ℚ)} (h : anyNeg (.two rows) = false)
    {i : ℕ} (hi : i < rows.length) : anyNeg (.one (rows.getD i [])) = false := by
  simp only [anyNeg, NDArr.flat] at h ⊢
  rw [List.any_eq_false] at h ⊢
  intro x hx
  exact h x (List.mem_flatten.mpr ⟨rows.getD i [], getD_mem hi [], hx⟩)

/-- Successful validation cascade for a 2-D batch with per-row edges and
slopes: rectangular rows of width `B`, monotone edge rows, everywhere
overlapping ranges. -/
lemma rebinChecked_two (rand : ℕ → ℚ) (rows eRows zRows : List (List ℚ))
    (oe : List ℚ) (mthd : String) (zpw : Bool) (pw : List RWarn) (B : ℕ)
    (hne : rows ≠ [])
    (hNe : eRows.length = rows.length) (hNz : zRows.length = rows.length)
    (hrect_s : ∀ r ∈ rows, r.length = B)
    (hrect_e : ∀ r ∈ eRows, r.length = B + 1)
    (hrect_z : ∀ r ∈ zRows, r.length = B)
    (hmono : ∀ r ∈ eRows, monoOkRow r = true) (hmono2 : monoOkRow oe = true)
    (hov1 : ∀ r ∈ eRows, oe.headD 0 < r.getLastD 0)
    (hov2 : ∀ r ∈ eRows, r.headD 0 < oe.getLastD 0) :
    rebinChecked rand (.two rows) (.two eRows) (.one oe) mthd
      (some (.two zRows)) zpw pw =
      (if mthd = "interpolation" then
        .ok (.two (zip3 (fun s e z => rebin_interpolation s e oe z) rows eRows zRows),
          pw ++ (if zpw then padWarnings (.two eRows) oe else []))
      else if mthd = "listmode" then
        .ok (.two (listmodeRows rand oe 0 rows eRows),
          pw ++ (if zpw then padWarnings (.two eRows) oe else []))
      else .error .unknownMethod) := by
  have hene : eRows ≠ [] := by
    intro h; rw [h] at hNe; simp at hNe; exact hne (List.length_eq_zero.mp hNe.symm)
  have hzne : zRows ≠ [] := by
    intro h; rw [h] at hNz; simp at hNz; exact hne (List.length_eq_zero.mp hNz.symm)
  have hheads : (rows.headD []).length = B := hrect_s _ (headD_mem hne [])
  have hheade : (eRows.headD []).length = B + 1 := hrect_e _ (headD_mem hene [])
  have hheadz : (zRows.headD []).length = B := hrect_z _ (headD_mem hzne [])
  have hsh1 : shapeEdgesOk (.two rows) (.two eRows) = true := by
    simp only [shapeEdgesOk, NDArr.shape, edgesShape]
    rw [hNe, hheads, hheade]
    simp
  have hsh2 : shapeEq (.two rows) (.two zRows) = true := by
    simp only [shapeEq, NDArr.shape]
    rw [hNz, hheads, hheadz]
    simp
  have hmonoAll : checkMonotonic (.two eRows) = true := List.all_eq_true.mpr hmono
  have hov1' : (lasts (.two eRows)).any (fun x => decide (x ≤ oe.headD 0)) = false := by
    apply List.any_eq_false.mpr
    intro x hx
    have hx' : x ∈ eRows.map (fun r => r.getLastD 0) := hx
    obtain ⟨r, hr, rfl⟩ := List.mem_map.mp hx'
    simp only [decide_eq_true_eq]
    exact not_le.mpr (hov1 r hr)
  have hov2' : (firsts (.two eRows)).any (fun x => decide (oe.getLastD 0 ≤ x)) = false := by
    apply List.any_eq_false.mpr
    intro x hx
    have hx' : x ∈ eRows.map (fun r => r.headD 0) := hx
    obtain ⟨r, hr, rfl⟩ := List.mem_map.mp hx'
    simp only [decide_eq_true_eq]
    exact not_le.mpr (hov2 r hr)
  simp only [rebinChecked, broadcast, Option.getD, outList]
  rw [if_neg (by simp [ndimOk2, NDArr.ndim])]
  rw [if_neg (by simp [ndimOk2, NDArr.ndim])]
  rw [if_neg (by simp [ndimOk2, NDArr.ndim])]
  rw [if_neg (by simp [NDArr.ndim])]
  rw [if_neg (by simp [hsh1])]
  rw [if_neg (by simp [hsh2])]
  rw [if_neg (by simp [hmonoAll])]
  rw [if_neg (by simp [checkMonotonic, hmono2])]
  rw [if_neg (by rw [hov1']; simp)]
  rw [if_neg (by rw [hov2']; simp)]
  rfl

/-- Broadcasting of shared 1-D edges inside the cascade, definitional. -/
lemma rebinChecked_shared_edges (rand : ℕ → ℚ) (rows : List (List ℚ))
    (e : List ℚ) (oute : NDArr) (mthd : String) (sl : Option NDArr) (zpw : Bool)
    (pw : List RWarn) :
    rebinChecked rand (.two rows) (.one e) oute mthd sl zpw pw
      = rebinChecked rand (.two rows) (.two (List.replicate rows.length e))
          oute mthd sl zpw pw := rfl

/-- Broadcasting of shared 1-D slopes inside the cascade, definitional. -/
lemma rebinChecked_shared_slopes (rand : ℕ → ℚ) (rows : List (List ℚ))
    (ine oute : NDArr) (z : List ℚ) (mthd : String) (zpw : Bool) (pw : List RWarn) :
    rebinChecked rand (.two rows) ine oute mthd (some (.one z)) zpw pw
      = rebinChecked rand (.two rows) ine oute mthd
          (some (.two (List.replicate rows.length z))) zpw pw := rfl

/-- Default slopes for a 2-D batch, definitional. -/
lemma rebinChecked_default_slopes_two (rand : ℕ → ℚ) (rows : List (List ℚ))
    (ine oute : NDArr) (mthd : String) (zpw : Bool) (pw : List RWarn) :
    rebinChecked rand (.two rows) ine oute mthd none zpw pw
      = rebinChecked rand (.two rows) ine oute mthd
          (some (.two (rows.map (fun r => List.replicate r.length 0)))) zpw pw := rfl

/-- C9 (amended).  Batch independence: a valid batch of spectra rebins
row-by-row to exactly what the corresponding single-spectrum calls return —
for the interpolation method with per-spectrum 2-D edges and slopes, and
with shared 1-D edges and slopes; for the listmode method, with shared 1-D
input edges and with per-spectrum 2-D input edges, the single call
reproduces the batch row when run on the part of the random stream the
batch spent on that row, *provided* the row passes the all-values-below-one
precheck on its own (a batch row that is all below one rebins to zeros in
the batch but raises AllBelowOneError when rebinned alone, see the
counterexample). -/
theorem batch_independence :
    (∀ (rand : ℕ → ℚ) (rows eRows zRows : List (List ℚ)) (oe : List ℚ)
      (w : Bool) (B i : ℕ),
      rows ≠ [] → eRows.length = rows.length → zRows.length = rows.length →
      (∀ r ∈ rows, r.length = B) → (∀ r ∈ eRows, r.length = B + 1) →
      (∀ r ∈ zRows, r.length = B) →
      (∀ r ∈ eRows, monoOkRow r = true) → monoOkRow oe = true →
      (∀ r ∈ eRows, oe.headD 0 < r.getLastD 0) →
      (∀ r ∈ eRows, r.headD 0 < oe.getLastD 0) →
      i < rows.length →
      ∃ res w1 w2,
        rebin rand (.two rows) (.two eRows) (.one oe) "interpolation"
          (some (.two zRows)) w = .ok (.two res, w1)
        ∧ rebin rand (.one (rows.getD i [])) (.one (eRows.getD i [])) (.one oe)
            "interpolation" (some (.one (zRows.getD i []))) w
            = .ok (.one (res.getD i []), w2))
    ∧ (∀ (rand : ℕ → ℚ) (rows : List (List ℚ)) (e z oe : List ℚ)
      (w : Bool) (B i : ℕ),
      rows ≠ [] → (∀ r ∈ rows, r.length = B) → e.length = B + 1 → z.length = B →
      monoOkRow e = true → monoOkRow oe = true →
      oe.headD 0 < e.getLastD 0 → e.headD 0 < oe.getLastD 0 →
      i < rows.length →
      ∃ res w1 w2,
        rebin rand (.two rows) (.one e) (.one oe) "interpolation"
          (some (.one z)) w = .ok (.two res, w1)
        ∧ rebin rand (.one (rows.getD i [])) (.one e) (.one oe)
            "interpolation" (some (.one z)) w = .ok (.one (res.getD i []), w2))
    ∧ (∀ (rand : ℕ → ℚ) (rows : List (List ℚ)) (e oe : List ℚ)
      (w : Bool) (B i : ℕ),
      rows ≠ [] → (∀ r ∈ rows, r.length = B) → e.length = B + 1 →
      monoOkRow e = true → monoOkRow oe = true →
      oe.headD 0 < e.getLastD 0 → e.headD 0 < oe.getLastD 0 →
      anyNeg (.two rows) = false → allBelowOne (.two rows) = false →
      i < rows.length →
      allBelowOne (.one (rows.getD i [])) = false →
      ∃ res w1 w2,
        rebin rand (.two rows) (.one e) (.one oe) "listmode" none w
          = .ok (.two res, w1)
        ∧ rebin (shiftRand rand (listmodeOffset (rows.map roundRow) i))
            (.one (rows.getD i [])) (.one e) (.one oe) "listmode" none w
            = .ok (.one (res.getD i []), w2))
    ∧ (∀ (rand : ℕ → ℚ) (rows eRows : List (List ℚ)) (oe : List ℚ)
      (w : Bool) (B i : ℕ),
      rows ≠ [] → eRows.length = rows.length →
      (∀ r ∈ rows, r.length = B) → (∀ r ∈ eRows, r.length = B + 1) →
      (∀ r ∈ eRows, monoOkRow r = true) → monoOkRow oe = true →
      (∀ r ∈ eRows, oe.headD 0 < r.getLastD 0) →
      (∀ r ∈ eRows, r.headD 0 < oe.getLastD 0) →
      anyNeg (.two rows) = false → allBelowOne (.two rows) = false →
      i < rows.length →
      allBelowOne (.one (rows.getD i [])) = false →
      ∃ res w1 w2,
        rebin rand (.two rows) (.two eRows) (.one oe) "listmode" none w
          = .ok (.two res, w1)
        ∧ rebin (shiftRand rand (listmodeOffset (rows.map roundRow) i))
            (.one (rows.getD i [])) (.one (eRows.getD i [])) (.one oe)
            "listmode" none w
            = .ok (.one (res.getD i []), w2)) := by
  refine ⟨?_, ?_, ?_, ?_⟩
  · -- interpolation, per-spectrum 2-D edges and slopes
    intro rand rows eRows zRows oe w B i hne hNe hNz hrs hre hrz hm hm2 ho1 ho2 hi
    have hie : i < eRows.length := by omega
    have hiz : i < zRows.length := by omega
    have hbatch : rebin rand (.two rows) (.two eRows) (.one oe) "interpolation"
        (some (.two zRows)) w
        = .ok (.two (zip3 (fun s e z => rebin_interpolation s e oe z) rows eRows zRows),
            [] ++ (if w = true then padWarnings (.two eRows) oe else [])) := by
      have h0 : rebin rand (.two rows) (.two eRows) (.one oe) "interpolation"
          (some (.two zRows)) w
          = rebinChecked rand (.two rows) (.two eRows) (.one oe)
              (strLower "interpolation") (some (.two zRows)) w [] := rfl
      rw [h0, show strLower "interpolation" = "interpolation" from by decide,
        rebinChecked_two rand rows eRows zRows oe "interpolation" w [] B hne hNe hNz
          hrs hre hrz hm hm2 ho1 ho2, if_pos rfl]
    have hsingle : rebin rand (.one (rows.getD i [])) (.one (eRows.getD i []))
        (.one oe) "interpolation" (some (.one (zRows.getD i []))) w
        = .ok (.one ((zip3 (fun s e z => rebin_interpolation s e oe z)
              rows eRows zRows).getD i []),
            [] ++ (if w = true then padWarnings (.one (eRows.getD i [])) oe else [])) := by
      have h0 : rebin rand (.one (rows.getD i [])) (.one (eRows.getD i [])) (.one oe)
          "interpolation" (some (.one (zRows.getD i []))) w
          = rebinChecked rand (.one (rows.getD i [])) (.one (eRows.getD i []))
              (.one oe) (strLower "interpolation") (some (.one (zRows.getD i []))) w []
          := rfl
      rw [h0, show strLower "interpolation" = "interpolation" from by decide,
        rebinChecked_one rand (rows.getD i []) (eRows.getD i []) oe (zRows.getD i [])
          "interpolation" w []
          (by rw [hre _ (getD_mem hie []), hrs _ (getD_mem hi [])])
          (by rw [hrz _ (getD_mem hiz []), hrs _ (getD_mem hi [])])
          (hm _ (getD_mem hie [])) hm2 (ho1 _ (getD_mem hie []))
          (ho2 _ (getD_mem hie [])), if_pos rfl]
      rw [zip3_getD (fun s e z => rebin_interpolation s e oe z) [] [] [] []
        rows eRows zRows i hi hie hiz]
    exact ⟨_, _, _, hbatch, hsingle⟩
  · -- interpolation, shared 1-D edges and slopes
    intro rand rows e z oe w B i hne hrs he hz hme hm2 ho1 ho2 hi
    have hbatch : rebin rand (.two rows) (.one e) (.one oe) "interpolation"
        (some (.one z)) w
        = .ok (.two (zip3 (fun s e' z' => rebin_interpolation s e' oe z') rows
              (List.replicate rows.length e) (List.replicate rows.length z)),
            [] ++ (if w = true then
              padWarnings (.two (List.replicate rows.length e)) oe else [])) := by
      have h0 : rebin rand (.two rows) (.one e) (.one oe) "interpolation"
          (some (.one z)) w
          = rebinChecked rand (.two rows) (.one e) (.one oe)
              (strLower "interpolation") (some (.one z)) w [] := rfl
      rw [h0, show strLower "interpolation" = "interpolation" from by decide,
        rebinChecked_shared_edges, rebinChecked_shared_slopes,
        rebinChecked_two rand rows (List.replicate rows.length e)
          (List.replicate rows.length z) oe "interpolation" w [] B hne
          (by simp) (by simp) hrs
          (fun r hr => by rw [List.eq_of_mem_replicate hr]; exact he)
          (fun r hr => by rw [List.eq_of_mem_replicate hr]; exact hz)
          (fun r hr => by rw [List.eq_of_mem_replicate hr]; exact hme) hm2
          (fun r hr => by rw [List.eq_of_mem_replicate hr]; exact ho1)
          (fun r hr => by rw [List.eq_of_mem_replicate hr]; exact ho2),
        if_pos rfl]
    have hsingle : rebin rand (.one (rows.getD i [])) (.one e) (.one oe)
        "interpolation" (some (.one z)) w
        = .ok (.one ((zip3 (fun s e' z' => rebin_interpolation s e' oe z') rows
              (List.replicate rows.length e) (List.replicate rows.length z)).getD i []),
            [] ++ (if w = true then padWarnings (.one e) oe else [])) := by
      have h0 : rebin rand (.one (rows.getD i [])) (.one e) (.one oe)
          "interpolation" (some (.one z)) w
          = rebinChecked rand (.one (rows.getD i [])) (.one e) (.one oe)
              (strLower "interpolation") (some (.one z)) w [] := rfl
      rw [h0, show strLower "interpolation" = "interpolation" from by decide,
        rebinChecked_one rand (rows.getD i []) e oe z "interpolation" w []
          (by rw [he, hrs _ (getD_mem hi [])])
          (by rw [hz, hrs _ (getD_mem hi [])]) hme hm2 ho1 ho2, if_pos rfl]
      rw [zip3_getD (fun s e' z' => rebin_interpolation s e' oe z') [] [] [] []
        rows (List.replicate rows.length e) (List.replicate rows.length z) i hi
        (by simpa using hi) (by simpa using hi)]
      rw [replicate_getD e [] hi, replicate_getD z [] hi]
    exact ⟨_, _, _, hbatch, hsingle⟩
  · -- listmode, shared 1-D edges, default slopes, shifted random stream
    intro rand rows e oe w B i hne hrs he hme hm2 ho1 ho2 hneg hbel hi hrowbel
    have hne' : rows.map roundRow ≠ [] := by
      intro h
      exact hne (List.map_eq_nil_iff.mp h)
    have hlen' : (rows.map roundRow).length = rows.length := by simp
    have hrs' : ∀ r ∈ rows.map roundRow, r.length = B := by
      intro r hr
      obtain ⟨r0, hr0, rfl⟩ := List.mem_map.mp hr
      simpa [roundRow] using hrs r0 hr0
    have hbatch : rebin rand (.two rows) (.one e) (.one oe) "listmode" none w
        = .ok (.two (listmodeRows rand oe 0 (rows.map roundRow)
              (List.replicate (rows.map roundRow).length e)),
            (if allCloseRound (.two rows) = true then [] else [RWarn.precisionLoss])
              ++ (if w = true then
                padWarnings (.two (List.replicate (rows.map roundRow).length e)) oe
                else [])) := by
      simp only [rebin]
      rw [show strLower "listmode" = "listmode" from by decide, if_pos rfl,
        if_neg (by simp [hneg]), if_neg (by simp [hbel])]
      rw [show roundArr (.two rows) = NDArr.two (rows.map roundRow) from rfl]
      rw [rebinChecked_shared_edges, rebinChecked_default_slopes_two,
        rebinChecked_two rand (rows.map roundRow)
          (List.replicate (rows.map roundRow).length e)
          ((rows.map roundRow).map (fun r => List.replicate r.length 0)) oe
          "listmode" w _ B hne' (by simp) (by simp) hrs'
          (fun r hr => by rw [List.eq_of_mem_replicate hr]; exact he)
          (fun r hr => by
            obtain ⟨r0, hr0, rfl⟩ := List.mem_map.mp hr
            simpa using hrs' r0 hr0)
          (fun r hr => by rw [List.eq_of_mem_replicate hr]; exact hme) hm2
          (fun r hr => by rw [List.eq_of_mem_replicate hr]; exact ho1)
          (fun r hr => by rw [List.eq_of_mem_replicate hr]; exact ho2)]
      rw [if_neg (show ¬ (("listmode" : String) = "interpolation") from by decide),
        if_pos rfl]
    have hsingle : rebin (shiftRand rand (listmodeOffset (rows.map roundRow) i))
        (.one (rows.getD i [])) (.one e) (.one oe) "listmode" none w
        = .ok (.one ((listmodeRows rand oe 0 (rows.map roundRow)
              (List.replicate (rows.map roundRow).length e)).getD i []),
            (if allCloseRound (.one (rows.getD i [])) = true then []
              else [RWarn.precisionLoss])
              ++ (if w = true then padWarnings (.one e) oe else [])) := by
      simp only [rebin]
      rw [show strLower "listmode" = "listmode" from by decide, if_pos rfl,
        if_neg (by simpa using anyNeg_row hneg hi), if_neg (by simpa using hrowbel)]
      rw [show roundArr (.one (rows.getD i [])) =
        NDArr.one (roundRow (rows.getD i [])) from rfl]
      rw [rebinChecked_default_slopes,
        rebinChecked_one (shiftRand rand (listmodeOffset (rows.map roundRow) i))
          (roundRow (rows.getD i [])) e oe _ "listmode" w _
          (by rw [he, show (roundRow (rows.getD i [])).length
              = (rows.getD i []).length from by simp [roundRow],
            hrs _ (getD_mem hi [])])
          (by simp) hme hm2 ho1 ho2]
      rw [if_neg (show ¬ (("listmode" : String) = "interpolation") from by decide),
        if_pos rfl]
      rw [listmodeRows_getD rand oe (rows.map roundRow)
        (List.replicate (rows.map roundRow).length e) 0 i (by simpa using hi)
        (by simpa using hi)]
      rw [show (rows.map roundRow).getD i [] = roundRow (rows.getD i []) from by
        simpa [roundRow] using map_getD roundRow [] rows i hi]
      rw [replicate_getD e [] (by simpa using hi), Nat.zero_add]
    exact ⟨_, _, _, hbatch, hsingle⟩
  · -- listmode, per-spectrum 2-D edges, default slopes, shifted random stream
    intro rand rows eRows oe w B i hne hNe hrs hre hm hm2 ho1 ho2 hneg hbel hi hrowbel
    have hie : i < eRows.length := by omega
    have hne' : rows.map roundRow ≠ [] := by
      intro h
      exact hne (List.map_eq_nil_iff.mp h)
    have hrs' : ∀ r ∈ rows.map roundRow, r.length = B := by
      intro r hr
      obtain ⟨r0, hr0, rfl⟩ := List.mem_map.mp hr
      simpa [roundRow] using hrs r0 hr0
    have hbatch : rebin rand (.two rows) (.two eRows) (.one oe) "listmode" none w
        = .ok (.two (listmodeRows rand oe 0 (rows.map roundRow) eRows),
            (if allCloseRound (.two rows) = true then [] else [RWarn.precisionLoss])
              ++ (if w = true then padWarnings (.two eRows) oe else [])) := by
      simp only [rebin]
      rw [show strLower "listmode" = "listmode" from by decide, if_pos rfl,
        if_neg (by simp [hneg]), if_neg (by simp [hbel])]
      rw [show roundArr (.two rows) = NDArr.two (rows.map roundRow) from rfl]
      rw [rebinChecked_default_slopes_two,
        rebinChecked_two rand (rows.map roundRow) eRows
          ((rows.map roundRow).map (fun r => List.replicate r.length 0)) oe
          "listmode" w _ B hne' (by simpa using hNe) (by simp) hrs' hre
          (fun r hr => by
            obtain ⟨r0, hr0, rfl⟩ := List.mem_map.mp hr
            simpa using hrs' r0 hr0)
          hm hm2 ho1 ho2]
      rw [if_neg (show ¬ (("listmode" : String) = "interpolation") from by decide),
        if_pos rfl]
    have hsingle : rebin (shiftRand rand (listmodeOffset (rows.map roundRow) i))
        (.one (rows.getD i [])) (.one (eRows.getD i [])) (.one oe) "listmode" none w
        = .ok (.one ((listmodeRows rand oe 0 (rows.map roundRow) eRows).getD i []),
            (if allCloseRound (.one (rows.getD i [])) = true then []
              else [RWarn.precisionLoss])
              ++ (if w = true then padWarnings (.one (eRows.getD i [])) oe
                else [])) := by
      simp only [rebin]
      rw [show strLower "listmode" = "listmode" from by decide, if_pos rfl,
        if_neg (by simpa using anyNeg_row hneg hi), if_neg (by simpa using hrowbel)]
      rw [show roundArr (.one (rows.getD i [])) =
        NDArr.one (roundRow (rows.getD i [])) from rfl]
      rw [rebinChecked_default_slopes,
        rebinChecked_one (shiftRand rand (listmodeOffset (rows.map roundRow) i))
          (roundRow (rows.getD i [])) (eRows.getD i []) oe _ "listmode" w _
          (by rw [hre _ (getD_mem hie []),
            show (roundRow (rows.getD i [])).length
              = (rows.getD i []).length from by simp [roundRow],
            hrs _ (getD_mem hi [])])
          (by simp) (hm _ (getD_mem hie [])) hm2 (ho1 _ (getD_mem hie []))
          (ho2 _ (getD_mem hie []))]
      rw [if_neg (show ¬ (("listmode" : String) = "interpolation") from by decide),
        if_pos rfl]
      rw [listmodeRows_getD rand oe (rows.map roundRow) eRows 0 i
        (by simpa using hi) hie]
      rw [show (rows.map roundRow).getD i [] = roundRow (rows.getD i []) from by
        simpa [roundRow] using map_getD roundRow [] rows i hi]
      rw [Nat.zero_add]
    exact ⟨_, _, _, hbatch, hsingle⟩

/-- C9 counterexample.  Rebinning the batch `[[2], [0]]` with the listmode
method succeeds (the all-below-one precheck sees the whole batch), but
rebinning the second row `[0]` alone raises `AllBelowOneError` — so a batch
row is not always identical to the row rebinned alone, as claimed. -/
theorem batch_row_vs_single_allbelowone :
    (rebin (fun _ => 0) (.two [[2], [0]]) (.one [0, 1]) (.one [0, 1])
      "listmode" none true).isOk = true
    ∧ rebin (fun _ => 0) (.one [0]) (.one [0, 1]) (.one [0, 1])
      "listmode" none true = .error .allBelowOne := by
  constructor
  · simp only [rebin]
    rw [show strLower "listmode" = "listmode" from by decide, if_pos rfl,
      if_neg (show ¬ (anyNeg (NDArr.two [[2], [0]]) = true) from by decide),
      if_neg (show ¬ (allBelowOne (NDArr.two [[2], [0]]) = true) from by decide)]
    rw [if_pos (show allCloseRound (NDArr.two [[2], [0]]) = true from by
      norm_num [allCloseRound, NDArr.flat, closeToRound, roundHalfEven, rabs])]
    rw [show roundArr (NDArr.two [[2], [0]]) = NDArr.two [[2], [0]] from by
      norm_num [roundArr, roundRow, roundHalfEven]]
    rw [rebinChecked_shared_edges, rebinChecked_default_slopes_two,
      rebinChecked_two (fun _ => 0) [[2], [0]]
        (List.replicate ([[2], [0]] : List (List ℚ)).length [0, 1])
        (([[2], [0]] : List (List ℚ)).map (fun r => List.replicate r.length 0))
        [0, 1] "listmode" true [] 1 (by decide) (by simp) (by simp) (by decide)
        (fun r hr => by
          rw [List.eq_of_mem_replicate hr]
          rfl)
        (fun r hr => by
          obtain ⟨r0, hr0, rfl⟩ := List.mem_map.mp hr
          fin_cases hr0 <;> rfl)
        (fun r hr => by
          rw [List.eq_of_mem_replicate hr]
          norm_num [monoOkRow, diffsRow, Tol, rabs])
        (by norm_num [monoOkRow, diffsRow, Tol, rabs])
        (fun r hr => by
          rw [List.eq_of_mem_replicate hr]
          norm_num)
        (fun r hr => by
          rw [List.eq_of_mem_replicate hr]
          norm_num)]
    rw [if_neg (show ¬ (("listmode" : String) = "interpolation") from by decide),
      if_pos rfl]
    rfl
  · simp only [rebin]
    rw [show strLower "listmode" = "listmode" from by decide, if_pos rfl,
      if_neg (show ¬ (anyNeg (NDArr.one [0]) = true) from by decide),
      if_pos (show allBelowOne (NDArr.one [0]) = true from by decide)]

/-- Witness for the amended C9 at a concrete batch with shared edges. -/
theorem batch_independence_witness :
    ∃ res w1 w2,
      rebin (fun _ => 0) (.two [[1], [2]]) (.one [0, 1]) (.one [0, 1])
        "interpolation" (some (.one [0])) true = .ok (.two res, w1)
      ∧ rebin (fun _ => 0) (.one (([[1], [2]] : List (List ℚ)).getD 1 []))
          (.one [0, 1]) (.one [0, 1]) "interpolation" (some (.one [0])) true
          = .ok (.one (res.getD 1 []), w2) :=
  batch_independence.2.1 (fun _ => 0) [[1], [2]] [0, 1] [0] [0, 1] true 1 1
    (by decide) (by decide) (by decide) (by decide)
    (by norm_num [monoOkRow, diffsRow, Tol, rabs])
    (by norm_num [monoOkRow, diffsRow, Tol, rabs])
    (by norm_num) (by norm_num) (by decide)

end Becq
